import Mathlib

/-!
# Verification of the aparte terminal UI core

Shallow embedding of the view-composition engine (`src/plugins/ui.rs`) and the
command tokenizer (`src/command.rs`), with theorems checking the natural-language
specification against the code.

Conventions:
* Rust `u16`/`usize` values are modelled as `Nat`; every unsigned subtraction the
  source performs unchecked is modelled with an explicit guard whose failure is
  `none` (the debug-build panic; release builds wrap, which is equally not a
  clamped value).  Functions that can panic therefore land in `Option`.
* Rust `String` is modelled as `List Char` in the tokenizer, where per-character
  behaviour matters, and as Lean `String` in the widget state, where strings are
  only compared and stored.
* `HashMap` is modelled as an association list; insertion order does not matter
  to any claim proved here.
-/

set_option maxHeartbeats 1000000

deriving instance DecidableEq for Except

namespace Aparte

/-! ## WinBar (`View<WinBar>`, ui.rs lines 524-568)

`connection`, `windows`, `current_window`, `highlighted` are the fields of
`struct WinBar`; `redraw` only writes to the screen and is omitted from state. -/

structure WinBarS where
  connection : Option String
  windows : List String
  current : Option String
  highlighted : List String
deriving DecidableEq

/-- `WinBar::new` content: everything empty. -/
def WinBarS.empty : WinBarS := ⟨none, [], none, []⟩

/-- `add_window`: `self.content.windows.push(window.to_string())`. -/
def addWindow (s : WinBarS) (w : String) : WinBarS :=
  { s with windows := s.windows ++ [w] }

/-- `set_current_window`: sets `current_window` and
`self.content.highlighted.drain_filter(|w| w == &window)` removes `window`
from the highlighted list. -/
def setCurrentWindow (s : WinBarS) (w : String) : WinBarS :=
  { s with current := some w,
           highlighted := s.highlighted.filter (fun x => !(x == w)) }

/-- `highlight_window`: pushes `window` onto `highlighted` only when
`self.content.highlighted.iter().find(|w| w == &window).is_none()`.
Note the source checks membership in `highlighted` only; it does not compare
against `current_window`. -/
def highlightWindow (s : WinBarS) (w : String) : WinBarS :=
  if (s.highlighted.find? (fun x => x == w)).isNone then
    { s with highlighted := s.highlighted ++ [w] }
  else s

/-- The three WinBar mutators reachable from events. -/
inductive WOp where
  | add (w : String)
  | setCur (w : String)
  | highlight (w : String)
deriving DecidableEq

def applyW (s : WinBarS) : WOp → WinBarS
  | .add w => addWindow s w
  | .setCur w => setCurrentWindow s w
  | .highlight w => highlightWindow s w

/-- The spec's invariant: the current window is never highlighted. -/
def WinInv (s : WinBarS) : Prop :=
  ∀ c, s.current = some c → c ∉ s.highlighted

/-- A run of WinBar operations in which `highlight_window` is never invoked with
the window that is current at that moment (this is how `UIPlugin::on_event`
calls it: only under `self.current != chat_name`). -/
def GoodSeq : WinBarS → List WOp → Prop
  | _, [] => True
  | s, op :: ops =>
      (∀ w, op = .highlight w → s.current ≠ some w) ∧ GoodSeq (applyW s op) ops

/-! ## `UIPlugin::switch` (ui.rs lines 853-867)

The switch operation touches: `self.current` (set before the lookup), and on
success the frame child (`set_child`), the title bar name (`set_name`) and the
win bar (`set_current_window`).  Windows are opaque values of type `α`;
`set_child`'s re-measure/re-layout of the child and all `redraw` calls only
affect the screen or geometry internal to the swapped-in child and are not part
of the state compared by claim C3. -/

structure UIState (α : Type) where
  windows : List (String × α)
  current : String
  frameChild : Option α
  titleName : Option String
  winBar : WinBarS
deriving DecidableEq

/-- `HashMap::get` on the windows map. -/
def lookupWin {α : Type} : List (String × α) → String → Option α
  | [], _ => none
  | (k, v) :: rest, name => if k = name then some v else lookupWin rest name

/-- `UIPlugin::switch`: note `self.current = chat.to_string()` executes before
the `self.windows.get(chat)` lookup, on both the success and the error path. -/
def switch {α : Type} (s : UIState α) (chat : String) :
    Except Unit Unit × UIState α :=
  let s := { s with current := chat }
  match lookupWin s.windows chat with
  | some w =>
      (.ok (), { s with frameChild := some w,
                        titleName := some chat,
                        winBar := setCurrentWindow s.winBar chat })
  | none => (.error (), s)

/-! ## BufferedWin (`View<BufferedWin<T>>`, ui.rs lines 682-753)

State: `buf` (append-only message list), `history` (dedup index: message
identity, i.e. the message itself under `Hash + Eq`, to its `buf` position),
`view` (scroll offset) and the view's measured height `h`.  The field
`next_line` is written only by `redraw` and read by nothing, so it is omitted
together with everything else `redraw` does (pure screen output).
`T`'s `fmt::Display` output split by `str::lines` is modelled by an arbitrary
`render : T → List String`. -/

structure BufferedWin (T : Type) where
  buf : List T
  history : List (T × Nat)
  view : Nat
deriving DecidableEq

structure BWView (T : Type) where
  h : Nat
  content : BufferedWin T
deriving DecidableEq

/-- `HashMap::contains_key` on the dedup index. -/
def hasKey {T : Type} [DecidableEq T] (hist : List (T × Nat)) (m : T) : Bool :=
  hist.any (fun p => p.1 = m)

/-- `HashMap::get` on the dedup index. -/
def getKey {T : Type} [DecidableEq T] : List (T × Nat) → T → Option Nat
  | [], _ => none
  | (k, v) :: rest, m => if k = m then some v else getKey rest m

/-- The flattened display-line count:
`self.content.buf.iter().flat_map(|m| format!("{}", m).lines()…)` collected
and counted. -/
def totalLines {T : Type} (render : T → List String) (buf : List T) : Nat :=
  (buf.map render).flatten.length

/-- `recv_message`: early-return when the identity is already indexed,
otherwise `history.insert(message.clone(), buf.len())` then `buf.push`.
The `print` flag only triggers `redraw` (screen output, no modelled state). -/
def recv_message {T : Type} [DecidableEq T] (w : BWView T) (m : T)
    (_print : Bool) : BWView T :=
  if hasKey w.content.history m then w
  else
    { w with content :=
        { w.content with
            history := w.content.history ++ [(m, w.content.buf.length)],
            buf := w.content.buf ++ [m] } }

/-- `page_up`: counts the flattened lines; returns early when they fit in the
viewport; otherwise advances `view` by `h` clamped to `count - h`. -/
def page_up {T : Type} (render : T → List String) (w : BWView T) : BWView T :=
  let count := totalLines render w.content.buf
  if count < w.h then w
  else
    let mx := count - w.h
    if w.content.view + w.h < mx then
      { w with content := { w.content with view := w.content.view + w.h } }
    else
      { w with content := { w.content with view := mx } }

/-- `page_down`: decreases `view` by `h`, clamped at 0 (the source guards the
unsigned subtraction with `view > h`). -/
def page_down {T : Type} (w : BWView T) : BWView T :=
  if w.content.view > w.h then
    { w with content := { w.content with view := w.content.view - w.h } }
  else
    { w with content := { w.content with view := 0 } }

inductive PageOp where
  | up
  | down
deriving DecidableEq

def pageStep {T : Type} (render : T → List String) (w : BWView T) :
    PageOp → BWView T
  | .up => page_up render w
  | .down => page_down w

/-! ## Command tokenizer (`Command::parse_with_cursor`, command.rs lines 16-146)

Strings are `List Char`.  The tokenizer is the Rust `loop` split into the
per-character transition (`pstep`, the `Some(c)` arms of the state match), the
end-of-input step (`pend`, the `None` arms), the loop itself (`parseLoop`,
carrying `string_cursor`/`token_cursor` bookkeeping) and the epilogue
(`parse_with_cursor`).  The outer `Option` of `parse_with_cursor` models the
one panic site, `tokens.len() - 1` on an empty `tokens` (`none` = panic). -/

inductive PState where
  | initial
  | delimiter
  | simplyQuoted
  | doublyQuoted
  | unquoted
  | unquotedEscaped
  | simplyQuotedEscaped
  | doublyQuotedEscaped
deriving DecidableEq

inductive PErr where
  | missingSlash
  | missingQuote
  | missingEscaped
deriving DecidableEq

/-- One `Some(c)` step of the Rust state match.  Returns the new state, the new
current token and the new token list; the only mid-stream failure is a
non-`/` first character. -/
def pstep (st : PState) (c : Char) (token : List Char)
    (tokens : List (List Char)) :
    Except PErr (PState × List Char × List (List Char)) :=
  match st with
  | .initial =>
      if c = '/' then .ok (.delimiter, token, tokens) else .error .missingSlash
  | .delimiter =>
      if c = ' ' then .ok (.delimiter, token, tokens)
      else if c = '\'' then .ok (.simplyQuoted, token, tokens)
      else if c = '"' then .ok (.doublyQuoted, token, tokens)
      else if c = '\\' then .ok (.unquotedEscaped, token, tokens)
      else .ok (.unquoted, token ++ [c], tokens)
  | .simplyQuoted =>
      if c = '\'' then .ok (.unquoted, token, tokens)
      else if c = '\\' then .ok (.simplyQuotedEscaped, token, tokens)
      else .ok (.simplyQuoted, token ++ [c], tokens)
  | .doublyQuoted =>
      if c = '"' then .ok (.unquoted, token, tokens)
      else if c = '\\' then .ok (.doublyQuotedEscaped, token, tokens)
      else .ok (.doublyQuoted, token ++ [c], tokens)
  | .unquoted =>
      if c = '\'' then .ok (.simplyQuoted, token, tokens)
      else if c = '"' then .ok (.doublyQuoted, token, tokens)
      else if c = '\\' then .ok (.unquotedEscaped, token, tokens)
      else if c = ' ' then .ok (.delimiter, [], tokens ++ [token])
      else .ok (.unquoted, token ++ [c], tokens)
  | .unquotedEscaped => .ok (.unquoted, token ++ [c], tokens)
  | .simplyQuotedEscaped => .ok (.simplyQuoted, token ++ [c], tokens)
  | .doublyQuotedEscaped => .ok (.doublyQuoted, token ++ [c], tokens)

/-- The `None` arms: `break` out of the loop (carrying the final state and
token list) or the end-of-input errors. -/
def pend (st : PState) (token : List Char) (tokens : List (List Char)) :
    Except PErr (PState × List (List Char)) :=
  match st with
  | .initial => .error .missingSlash
  | .delimiter => .ok (.delimiter, tokens)
  | .unquoted => .ok (.unquoted, tokens ++ [token])
  | .simplyQuoted => .error .missingQuote
  | .doublyQuoted => .error .missingQuote
  | .unquotedEscaped => .error .missingEscaped
  | .simplyQuotedEscaped => .error .missingEscaped
  | .doublyQuotedEscaped => .error .missingEscaped

/-- The Rust `loop` with the cursor bookkeeping: after each consumed character,
if `string_cursor` has reached 0 and `token_cursor` is unset it becomes
`Some(tokens.len())` (the length after the transition); otherwise
`string_cursor` is decremented.  `break`/error iterations skip the
bookkeeping, exactly as in the source. -/
def parseLoop : List Char → PState → List Char → List (List Char) → Nat →
    Option Nat → Except PErr (PState × List (List Char) × Option Nat)
  | [], st, token, tokens, _, tcur =>
      match pend st token tokens with
      | .error e => .error e
      | .ok (st', toks) => .ok (st', toks, tcur)
  | c :: cs, st, token, tokens, scur, tcur =>
      match pstep st c token tokens with
      | .error e => .error e
      | .ok (st', token', tokens') =>
          if scur = 0 then
            parseLoop cs st' token' tokens' 0
              (match tcur with
               | some k => some k
               | none => some tokens'.length)
          else
            parseLoop cs st' token' tokens' (scur - 1) tcur

/-- Cursor-free projection of the loop, used by the proofs; `parseLoop`'s
state/token components coincide with it (`parseLoop_proj` below). -/
def tokenLoop : List Char → PState → List Char → List (List Char) →
    Except PErr (PState × List (List Char))
  | [], st, token, tokens => pend st token tokens
  | c :: cs, st, token, tokens =>
      match pstep st c token tokens with
      | .error e => .error e
      | .ok (st', token', tokens') => tokenLoop cs st' token' tokens'

/-- The pure state automaton: the state reached after consuming the input,
ignoring tokens.  Used to phrase "the input ends inside a quoted span /
right after an escape character". -/
def runState : PState → List Char → PState
  | st, [] => st
  | st, c :: cs =>
      match pstep st c [] [] with
      | .error _ => st
      | .ok (st', _, _) => runState st' cs

structure Cmd where
  args : List (List Char)
  cursor : Nat
deriving DecidableEq

/-- Lines 135-145: zero tokens produce a single empty argument. -/
def mkCmd (tokens : List (List Char)) (k : Nat) : Cmd :=
  if tokens.isEmpty then ⟨[[]], k⟩ else ⟨tokens, k⟩

/-- The post-loop code of `parse_with_cursor` (lines 128-145): fill in the
`token_cursor` fallback — `tokens.len()` in the `Delimiter` state, otherwise
`tokens.len() - 1`, whose usize underflow on empty `tokens` is the `none`
(panic) case — and package the result. -/
def parseEpilogue :
    Except PErr (PState × List (List Char) × Option Nat) →
    Option (Except PErr Cmd)
  | .error e => some (.error e)
  | .ok (st, tokens, tcur) =>
      match tcur with
      | some k => some (.ok (mkCmd tokens k))
      | none =>
          match st with
          | .delimiter => some (.ok (mkCmd tokens tokens.length))
          | _ =>
              match tokens with
              | [] => none
              | _ :: _ => some (.ok (mkCmd tokens (tokens.length - 1)))

/-- `Command::parse_with_cursor`: the loop from the `Initial` state followed by
the epilogue. -/
def parse_with_cursor (s : List Char) (cursor : Nat) :
    Option (Except PErr Cmd) :=
  parseEpilogue (parseLoop s .initial [] [] cursor none)

/-! ### `Command::escape` and `Command::assemble` (command.rs lines 148-212) -/

/-- The `quote` variable of `Command::escape`: `None`, `Some(' ')`,
`Some('\'')` or `Some('"')` (any other `Some` is `unreachable!()`, which the
closed inductive makes impossible by construction). -/
inductive Qs where
  | qnone
  | qspace
  | qsingle
  | qdouble
deriving DecidableEq

/-- One character of `Command::escape`'s loop: the emitted characters and the
updated `quote` state. -/
def escChar (c : Char) (q : Qs) : List Char × Qs :=
  if c = '\\' then (['\\', '\\'], q)
  else if c = ' ' then ([' '], if q = .qnone then .qspace else q)
  else if c = '\'' then
    match q with
    | .qsingle => (['\\', '\''], .qsingle)
    | .qdouble => (['\''], .qdouble)
    | .qnone => (['\''], .qdouble)
    | .qspace => (['\''], .qdouble)
  else if c = '"' then
    match q with
    | .qsingle => (['"'], .qsingle)
    | .qdouble => (['\\', '"'], .qdouble)
    | .qnone => (['"'], .qsingle)
    | .qspace => (['"'], .qsingle)
  else ([c], q)

/-- The escape loop: accumulated output (the Rust code extends a growing
string; appending per character is the same fold) and final `quote`. -/
def escFold : List Char → Qs → List Char × Qs
  | [], q => ([], q)
  | c :: cs, q =>
      let oq := escChar c q
      let rest := escFold cs oq.2
      (oq.1 ++ rest.1, rest.2)

/-- `Command::escape`: run the loop from `quote = None`, turn a final
`Some(' ')` into `Some('"')`, and wrap in the chosen quote if any. -/
def escape (arg : List Char) : List Char :=
  let bq := escFold arg .qnone
  let q := if bq.2 = .qspace then .qdouble else bq.2
  match q with
  | .qnone => bq.1
  | .qsingle => '\'' :: (bq.1 ++ ['\''])
  | _ => '"' :: (bq.1 ++ ['"'])

/-- The argument-joining loop of `Command::assemble` (space before every
argument except the first). -/
def assembleArgs : List (List Char) → List Char
  | [] => []
  | [a] => escape a
  | a :: rest => escape a ++ (' ' :: assembleArgs rest)

/-- `Command::assemble`: leading `/` then the escaped arguments. -/
def assemble (args : List (List Char)) : List Char :=
  '/' :: assembleArgs args

/-! ## The view tree (`ui.rs` lines 28-335)

A `View<T>` holds `width`/`height` (`Dimension`), position `x`/`y` and measured
size `w`/`h`.  The tree has three node kinds: leaves using the `default impl`
`measure`/`layout` (Input, TitleBar, WinBar, BufferedWin — their content plays
no role in geometry), `View<FrameLayout>` (optional child; its own
`width`/`height` dimensions are never read by its `measure`) and
`View<LinearLayout>` (orientation plus ordered children).

Sizes are `Nat`s standing for `u16`; every unsigned subtraction performed by
the source is modelled with a guard whose failure is `none`, as are the
`unreachable!()` on measuring a `WrapContent` leaf and each
`.unwrap()` on `get_measured_width/height`.  `measure` and `layout` therefore
return `Option` trees: `none` means the Rust code panics. -/

inductive Dimension where
  | matchParent
  | wrapContent
  | absolute (n : Nat)
deriving DecidableEq

inductive Orientation where
  | vertical
  | horizontal
deriving DecidableEq

mutual

inductive VTree : Type where
  | leaf (width height : Dimension) (x y w h : Nat)
  | frame (x y w h : Nat) (child : VOpt)
  | linear (or : Orientation) (width height : Dimension) (x y w h : Nat)
      (children : VList)
deriving DecidableEq

inductive VOpt : Type where
  | none
  | some (t : VTree)
deriving DecidableEq

inductive VList : Type where
  | nil
  | cons (hd : VTree) (tl : VList)
deriving DecidableEq

end

/-- The measured width field `self.w` of any view. -/
def wOf : VTree → Nat
  | .leaf _ _ _ _ w _ => w
  | .frame _ _ w _ _ => w
  | .linear _ _ _ _ _ w _ _ => w

/-- The measured height field `self.h` of any view. -/
def hOf : VTree → Nat
  | .leaf _ _ _ _ _ h => h
  | .frame _ _ _ h _ => h
  | .linear _ _ _ _ _ _ h _ => h

/-- Default `get_measured_width` (ui.rs lines 100-106): `Some(w)` iff `w > 0`.
No view overrides it. -/
def gmW (v : VTree) : Option Nat :=
  if wOf v > 0 then some (wOf v) else none

/-- Default `get_measured_height` (ui.rs lines 108-114). -/
def gmH (v : VTree) : Option Nat :=
  if hOf v > 0 then some (hOf v) else none

/-- Default-impl resolution of one axis from a `Dimension` and an offered spec
(ui.rs lines 61-93).  `WrapContent` is `unreachable!()` on a leaf: `none`. -/
def resolveDim : Dimension → Option Nat → Option Nat
  | .matchParent, spec => some (spec.getD 0)
  | .wrapContent, _ => none
  | .absolute a, some s => some (min a s)
  | .absolute a, none => some a

/-- `LinearLayout`'s own bound on one axis (ui.rs lines 207-227): pass the
spec through for `MatchParent`/`WrapContent`, cap an `Absolute` by the spec. -/
def specFor : Dimension → Option Nat → Option Nat
  | .matchParent, spec => spec
  | .wrapContent, spec => spec
  | .absolute a, some s => some (min a s)
  | .absolute a, none => some a

/-- `remaining_width`/`remaining_height` (ui.rs lines 245-253): `max - min`
with no clamp; the code's u16 subtraction underflows when `min > max`
(`none` = that panic), and an absent spec gives 0. -/
def remaining : Option Nat → Nat → Option Nat
  | some mx, mn => if mn ≤ mx then some (mx - mn) else none
  | none, _ => some 0

/-- `(gmW, gmH)` of each measured child, the data the aggregation and the
resolve pass read back from the intrinsic pass. -/
def gmList : VList → List (Option Nat × Option Nat)
  | .nil => []
  | .cons c cs => (gmW c, gmH c) :: gmList cs

/-- `min_width` of the intrinsic pass (ui.rs lines 229-243).  Vertical: max of
children's measured widths (`unwrap_or(0)`).  Horizontal: the source adds up
`get_measured_height` — the heights, not the widths. -/
def minWidth (or : Orientation) (gms : List (Option Nat × Option Nat)) : Nat :=
  match or with
  | .vertical => gms.foldl (fun acc p => max acc (p.1.getD 0)) 0
  | .horizontal => gms.foldl (fun acc p => acc + (p.2.getD 0)) 0

/-- `min_height` of the intrinsic pass: vertical sums heights, horizontal
takes the max of heights. -/
def minHeight (or : Orientation) (gms : List (Option Nat × Option Nat)) : Nat :=
  match or with
  | .vertical => gms.foldl (fun acc p => acc + (p.2.getD 0)) 0
  | .horizontal => gms.foldl (fun acc p => max acc (p.2.getD 0)) 0

/-- Number of children whose measured width is unknown (ui.rs line 259). -/
def countNoneW (gms : List (Option Nat × Option Nat)) : Nat :=
  (gms.filter (fun p => p.1.isNone)).length

/-- Number of children whose measured height is unknown (ui.rs line 268). -/
def countNoneH (gms : List (Option Nat × Option Nat)) : Nat :=
  (gms.filter (fun p => p.2.isNone)).length

/-- `splitted_width` (ui.rs lines 256-265): vertical passes `max_width`
through; horizontal divides the remaining width among unsized children. -/
def splittedW (or : Orientation) (maxW : Option Nat) (remW : Nat)
    (gms : List (Option Nat × Option Nat)) : Option Nat :=
  match or with
  | .vertical => maxW
  | .horizontal =>
      some (match countNoneW gms with
            | 0 => 0
            | n + 1 => remW / (n + 1))

/-- `splitted_height` (ui.rs lines 266-275), symmetric. -/
def splittedH (or : Orientation) (maxH : Option Nat) (remH : Nat)
    (gms : List (Option Nat × Option Nat)) : Option Nat :=
  match or with
  | .vertical =>
      some (match countNoneH gms with
            | 0 => 0
            | n + 1 => remH / (n + 1))
  | .horizontal => maxH

/-- The spec the resolve pass offers a child on one axis (ui.rs lines
281-289): its own measured size when known, else the split share. -/
def pickSpec (g sp : Option Nat) : Option Nat :=
  match g with
  | some a => some a
  | none => sp

/-- The main-axis cap of the resolve pass (ui.rs lines 291-297): when active
(matching orientation and a present container bound `mx = Some m`), the spec
becomes `Some(min(spec.unwrap(), m - acc))`.  The outer `Option` is the panic:
`spec.unwrap()` on `None`, or the u16 underflow of `m - acc`. -/
def capMain (active : Bool) (mx spec : Option Nat) (acc : Nat) :
    Option (Option Nat) :=
  if active then
    match mx with
    | some m =>
        match spec with
        | some s => if acc ≤ m then some (some (min s (m - acc))) else none
        | none => none
    | none => some spec
  else some spec

mutual

/-- `ViewTrait::measure` of every node kind.
Leaf: the default impl.  Frame (ui.rs lines 146-153): adopt the specs
(`unwrap_or(0)`) and measure the child against them.  Linear (ui.rs lines
206-312): intrinsic pass measuring each child `(None, None)`, aggregation,
remaining-space split, then the resolve pass re-measuring each child and
accumulating the container's own `w`/`h`.  The resolve pass re-measures the
children measured by the intrinsic pass; since no `measure` reads prior
`x`/`y`/`w`/`h` (proved as `measure_stripG` below), re-measuring the original
child with the intrinsic results supplied through `gmList` is the same
computation. -/
def measure (ws hs : Option Nat) : VTree → Option VTree
  | .leaf dw dh x y _ _ =>
      match resolveDim dw ws with
      | Option.none => Option.none
      | Option.some w' =>
          match resolveDim dh hs with
          | Option.none => Option.none
          | Option.some h' => Option.some (.leaf dw dh x y w' h')
  | .frame x y _ _ c =>
      let w' := ws.getD 0
      let h' := hs.getD 0
      match c with
      | .none => Option.some (.frame x y w' h' .none)
      | .some t =>
          match measure (some w') (some h') t with
          | Option.none => Option.none
          | Option.some t' => Option.some (.frame x y w' h' (.some t'))
  | .linear or dw dh x y _ _ cs =>
      let maxW := specFor dw ws
      let maxH := specFor dh hs
      match measureList cs with
      | Option.none => Option.none
      | Option.some cs₁ =>
          let gms := gmList cs₁
          match remaining maxW (minWidth or gms) with
          | Option.none => Option.none
          | Option.some remW =>
              match remaining maxH (minHeight or gms) with
              | Option.none => Option.none
              | Option.some remH =>
                  let spW := splittedW or maxW remW gms
                  let spH := splittedH or maxH remH gms
                  match resolveFold or maxW maxH spW spH cs gms 0 0 with
                  | Option.none => Option.none
                  | Option.some (cs₂, w', h') =>
                      Option.some (.linear or dw dh x y w' h' cs₂)

/-- The intrinsic pass: `child.measure(None, None)` for every child. -/
def measureList : VList → Option VList
  | .nil => Option.some .nil
  | .cons c cs =>
      match measure none none c with
      | Option.none => Option.none
      | Option.some c' =>
          match measureList cs with
          | Option.none => Option.none
          | Option.some cs' => Option.some (.cons c' cs')

/-- The resolve pass (ui.rs lines 280-311): for each child pick its known
measured size, else the split share; cap along the main axis; re-measure; then
accumulate the container's `w`/`h` — vertical: `w = max w child_w`,
`h += child_h`; horizontal: `w += child_w`, then the source's
`self.h = max(self.w, child_h)` uses the just-updated `self.w`, a width, in
the height.  The `unwrap()`s on the re-measured child's sizes are the
`Option.none` (panic) cases. -/
def resolveFold (or : Orientation) (maxW maxH spW spH : Option Nat) :
    VList → List (Option Nat × Option Nat) → Nat → Nat →
    Option (VList × Nat × Nat)
  | .nil, _, w, h => Option.some (.nil, w, h)
  | .cons c cs, gms, w, h =>
      let wSpec0 := pickSpec (gms.headD (none, none)).1 spW
      let hSpec0 := pickSpec (gms.headD (none, none)).2 spH
      match capMain (or = .horizontal) maxW wSpec0 w with
      | Option.none => Option.none
      | Option.some wSpec =>
          match capMain (or = .vertical) maxH hSpec0 h with
          | Option.none => Option.none
          | Option.some hSpec =>
              match measure wSpec hSpec c with
              | Option.none => Option.none
              | Option.some c' =>
                  match gmW c', gmH c' with
                  | Option.some cw, Option.some ch =>
                      match or with
                      | .vertical =>
                          match resolveFold or maxW maxH spW spH cs gms.tail
                              (max w cw) (h + ch) with
                          | Option.none => Option.none
                          | Option.some (cs₂, fw, fh) =>
                              Option.some (.cons c' cs₂, fw, fh)
                      | .horizontal =>
                          match resolveFold or maxW maxH spW spH cs gms.tail
                              (w + cw) (max (w + cw) ch) with
                          | Option.none => Option.none
                          | Option.some (cs₂, fw, fh) =>
                              Option.some (.cons c' cs₂, fw, fh)
                  | _, _ => Option.none

end

mutual

/-- `ViewTrait::layout` of every node kind.  Leaf: store the position.  Frame
(ui.rs lines 155-162): store and forward `(top, left)` to the child.  Linear
(ui.rs lines 314-328): walk the children advancing the main-axis offset by
each child's measured size (`unwrap()` = the `Option.none` panic case). -/
def layout (top left : Nat) : VTree → Option VTree
  | .leaf dw dh _ _ w h => Option.some (.leaf dw dh left top w h)
  | .frame _ _ w h c =>
      match c with
      | .none => Option.some (.frame left top w h .none)
      | .some t =>
          match layout top left t with
          | Option.none => Option.none
          | Option.some t' => Option.some (.frame left top w h (.some t'))
  | .linear or dw dh _ _ w h cs =>
      match layoutFold or cs top left with
      | Option.none => Option.none
      | Option.some cs' => Option.some (.linear or dw dh left top w h cs')

/-- The child-placement loop of `View<LinearLayout>::layout`, carrying the
running `(y, x)` offsets. -/
def layoutFold (or : Orientation) : VList → Nat → Nat → Option VList
  | .nil, _, _ => Option.some .nil
  | .cons c cs, y, x =>
      match layout y x c with
      | Option.none => Option.none
      | Option.some c' =>
          match or with
          | .vertical =>
              match gmH c' with
              | Option.none => Option.none
              | Option.some ch =>
                  match layoutFold or cs (y + ch) x with
                  | Option.none => Option.none
                  | Option.some cs' => Option.some (.cons c' cs')
          | .horizontal =>
              match gmW c' with
              | Option.none => Option.none
              | Option.some cw =>
                  match layoutFold or cs y (x + cw) with
                  | Option.none => Option.none
                  | Option.some cs' => Option.some (.cons c' cs')

end

/-! # Theorems -/

/-! ## C4: `highlight_window` and the current-window/highlight invariant -/

/-- The concrete state reached by `set_current_window("a")` then
`highlight_window("a")` from the empty WinBar. -/
def c4state : WinBarS := highlightWindow (setCurrentWindow WinBarS.empty "a") "a"

/-- C4 counterexample: `highlight_window` does not check the current window.
Calling it with the current window ("a") adds it to the highlighted set, so
after `set_current_window("a"); highlight_window("a")` the current window is a
member of the highlighted set, refuting both the claimed no-op and the claimed
invariant. -/
theorem c4_counterexample :
    c4state.current = some "a" ∧ "a" ∈ c4state.highlighted := by
  constructor
  · rfl
  · decide

lemma highlightWindow_mem {s : WinBarS} {w : String}
    (h : w ∈ s.highlighted) : highlightWindow s w = s := by
  unfold highlightWindow
  rw [if_neg]
  simp only [Option.isNone_iff_eq_none, List.find?_eq_none, not_forall]
  exact ⟨w, h, by simp⟩

lemma applyW_inv {s : WinBarS} {op : WOp} (hinv : WinInv s)
    (hguard : ∀ w, op = .highlight w → s.current ≠ some w) :
    WinInv (applyW s op) := by
  cases op with
  | add w =>
      intro c hc
      exact hinv c hc
  | setCur w =>
      intro c hc hmem
      simp only [applyW, setCurrentWindow, Option.some.injEq] at hc hmem
      subst hc
      rcases List.mem_filter.mp hmem with ⟨-, hkeep⟩
      simp at hkeep
  | highlight w =>
      intro c hc hmem
      simp only [applyW, highlightWindow] at hc hmem
      by_cases hfind : (s.highlighted.find? (fun x => x == w)).isNone
      · rw [if_pos hfind] at hc hmem
        simp only at hc
        rcases List.mem_append.mp hmem with hold | hnew
        · exact hinv c hc hold
        · have hw : c = w := List.mem_singleton.mp hnew
          subst hw
          exact hguard c rfl hc
      · rw [if_neg hfind] at hc hmem
        exact hinv c hc hmem

lemma goodSeq_inv : ∀ (ops : List WOp) (s : WinBarS),
    WinInv s → GoodSeq s ops → WinInv (ops.foldl applyW s) := by
  intro ops
  induction ops with
  | nil => intro s hinv _; exact hinv
  | cons op rest ih =>
      intro s hinv hgood
      exact ih (applyW s op) (applyW_inv hinv hgood.1) hgood.2

/-- C4 (amended): `highlight_window(name)` is a no-op when `name` is already
highlighted, but it does not test the current window; the invariant "the
current window is never highlighted" holds along every run in which
`highlight_window` is only invoked with non-current windows (as
`UIPlugin::on_event` does, guarded by `self.current != chat_name`). -/
theorem c4_highlight_amended :
    (∀ (s : WinBarS) (w : String), w ∈ s.highlighted →
      highlightWindow s w = s) ∧
    (∀ (ops : List WOp) (s : WinBarS), WinInv s → GoodSeq s ops →
      WinInv (ops.foldl applyW s)) :=
  ⟨fun _ _ h => highlightWindow_mem h, goodSeq_inv⟩

/-- C4 witness: a concrete idempotent call and a concrete guarded run
keeping the invariant. -/
theorem c4_highlight_amended_witness :
    highlightWindow ⟨none, ["a"], some "b", ["a"]⟩ "a" =
      ⟨none, ["a"], some "b", ["a"]⟩ ∧
    WinInv ([WOp.add "a", WOp.setCur "a", WOp.highlight "b",
        WOp.setCur "b"].foldl applyW WinBarS.empty) := by
  refine ⟨c4_highlight_amended.1 _ "a" (by decide), ?_⟩
  refine c4_highlight_amended.2 _ WinBarS.empty (fun c hc => by simp [WinBarS.empty] at hc) ?_
  simp only [GoodSeq]
  refine ⟨?_, ?_, ?_, ?_, trivial⟩
  · intro w hw
    exact nomatch hw
  · intro w hw
    exact nomatch hw
  · intro w hw
    injection hw with h
    subst h
    decide
  · intro w hw
    exact nomatch hw

/-! ## C3: switching to an unknown window -/

/-- A UI state with one registered window, `"console"`, which is current. -/
def c3state : UIState Nat :=
  ⟨[("console", 0)], "console", none, none, WinBarS.empty⟩

/-- C3 counterexample: switching to the unknown name `"x"` returns an error
but does change the UI state: `self.current` is overwritten before the lookup,
so the current-window name is `"x"` afterwards, not `"console"`. -/
theorem c3_counterexample :
    (switch c3state "x").1 = .error () ∧
    (switch c3state "x").2.current = "x" ∧
    c3state.current = "console" := by
  refine ⟨rfl, rfl, rfl⟩

/-- C3 (amended): for a name that is not a key of the windows map, `switch`
returns an error and leaves the frame child, title bar and win bar untouched,
but it does set the current-window name to the requested name (the assignment
precedes the lookup). -/
theorem c3_switch_unknown {α : Type} (s : UIState α) (name : String)
    (h : lookupWin s.windows name = none) :
    switch s name = (.error (), { s with current := name }) := by
  unfold switch
  simp only []
  rw [show ({ s with current := name } : UIState α).windows = s.windows from rfl] at *
  rw [h]

/-- C3 witness: the amended theorem applied at the concrete state. -/
theorem c3_switch_unknown_witness :
    lookupWin c3state.windows "x" = none ∧
    switch c3state "x" = (.error (), { c3state with current := "x" }) :=
  ⟨by decide, c3_switch_unknown c3state "x" (by decide)⟩

/-! ## C7: deduplicating insertion -/

lemma getKey_append_self {T : Type} [DecidableEq T]
    {hist : List (T × Nat)} {m : T} (h : hasKey hist m = false) (v : Nat) :
    getKey (hist ++ [(m, v)]) m = some v := by
  induction hist with
  | nil => simp [getKey]
  | cons p rest ih =>
      simp only [hasKey, List.any_cons, Bool.or_eq_false_iff,
        decide_eq_false_iff_not] at h
      rw [List.cons_append]
      show (if p.1 = m then some p.2 else getKey (rest ++ [(m, v)]) m) = some v
      rw [if_neg h.1]
      exact ih h.2

/-- C7: `recv_message` is a no-op (the whole state, hence also `buf.len()`,
the dedup index, the scroll offset and the flattened line count) when the
message identity is already indexed; otherwise it appends the message to
`buf` and indexes its identity at the old `buf.len()`, leaving the scroll
offset and height alone. -/
theorem c7_recv_message {T : Type} [DecidableEq T] (w : BWView T) (m : T)
    (print : Bool) :
    (hasKey w.content.history m = true → recv_message w m print = w) ∧
    (hasKey w.content.history m = false →
      (recv_message w m print).content.buf = w.content.buf ++ [m] ∧
      getKey (recv_message w m print).content.history m =
        some w.content.buf.length ∧
      (recv_message w m print).content.view = w.content.view ∧
      (recv_message w m print).h = w.h) := by
  constructor
  · intro h
    simp [recv_message, h]
  · intro h
    refine ⟨?_, ?_, ?_, ?_⟩ <;> simp [recv_message, h, getKey_append_self h]

/-- C7 witness: a duplicate insertion at a concrete state is the identity, and
a fresh insertion at a concrete state appends and indexes. -/
theorem c7_recv_message_witness :
    (hasKey ([(5, 0)] : List (Nat × Nat)) 5 = true ∧
      recv_message (⟨1, ⟨[5], [(5, 0)], 0⟩⟩ : BWView Nat) 5 true =
        ⟨1, ⟨[5], [(5, 0)], 0⟩⟩) ∧
    (hasKey ([(5, 0)] : List (Nat × Nat)) 7 = false ∧
      (recv_message (⟨1, ⟨[5], [(5, 0)], 0⟩⟩ : BWView Nat) 7 false).content.buf
        = [5, 7]) := by
  refine ⟨⟨by decide, (c7_recv_message _ 5 true).1 (by decide)⟩,
    ⟨by decide, ?_⟩⟩
  have h := ((c7_recv_message (⟨1, ⟨[5], [(5, 0)], 0⟩⟩ : BWView Nat) 7
    false).2 (by decide)).1
  exact h

/-! ## C6: scroll bounds -/

/-- The scroll invariant, in truncated-subtraction form:
`view ≤ total_lines - h` (which is 0 when `total_lines < h`). -/
def ScrollInv {T : Type} (render : T → List String) (w : BWView T) : Prop :=
  w.content.view ≤ totalLines render w.content.buf - w.h

lemma pageStep_frame {T : Type} (render : T → List String) (w : BWView T)
    (op : PageOp) :
    (pageStep render w op).content.buf = w.content.buf ∧
    (pageStep render w op).h = w.h := by
  cases op <;> simp only [pageStep, page_up, page_down] <;> split <;>
    first
      | exact ⟨rfl, rfl⟩
      | (split <;> exact ⟨rfl, rfl⟩)

lemma pageStep_inv {T : Type} (render : T → List String) (w : BWView T)
    (op : PageOp) (h : ScrollInv render w) :
    ScrollInv render (pageStep render w op) := by
  have hfr := pageStep_frame render w op
  unfold ScrollInv at h ⊢
  rw [hfr.1, hfr.2]
  cases op with
  | up =>
      simp only [pageStep, page_up] at hfr ⊢
      split
      · exact h
      · rename_i hge
        split
        · rename_i hlt
          simp only
          omega
        · simp only
          omega
  | down =>
      simp only [pageStep, page_down] at hfr ⊢
      split
      · simp only
        omega
      · exact Nat.zero_le _

lemma pageRun_inv {T : Type} (render : T → List String) :
    ∀ (ops : List PageOp) (w : BWView T), ScrollInv render w →
      ScrollInv render (ops.foldl (pageStep render) w) ∧
      (ops.foldl (pageStep render) w).content.buf = w.content.buf ∧
      (ops.foldl (pageStep render) w).h = w.h := by
  intro ops
  induction ops with
  | nil => exact fun w h => ⟨h, rfl, rfl⟩
  | cons op rest ih =>
      intro w h
      have hstep := pageStep_inv render w op h
      have hfr := pageStep_frame render w op
      rcases ih (pageStep render w op) hstep with ⟨h1, h2, h3⟩
      exact ⟨h1, by rw [List.foldl_cons, h2, hfr.1],
        by rw [List.foldl_cons, h3, hfr.2]⟩

/-- C6: starting from scroll offset 0, any sequence of `page_up`/`page_down`
keeps `0 ≤ view ≤ max 0 (total_lines - h)`; in particular `page_up` on a
buffer shorter than the viewport leaves `view` at 0 and `page_down` never
drives it below 0. -/
theorem c6_scroll_bounds {T : Type} (render : T → List String)
    (w : BWView T) (ops : List PageOp) (h0 : w.content.view = 0) :
    0 ≤ ((ops.foldl (pageStep render) w).content.view : ℤ) ∧
    ((ops.foldl (pageStep render) w).content.view : ℤ) ≤
      max 0 ((totalLines render w.content.buf : ℤ) - (w.h : ℤ)) := by
  have hinv : ScrollInv render w := by
    unfold ScrollInv
    omega
  rcases pageRun_inv render ops w hinv with ⟨h1, h2, h3⟩
  unfold ScrollInv at h1
  rw [h2, h3] at h1
  omega

/-- C6 witness: a concrete 3-line buffer with viewport height 2 and the run
`page_up; page_up; page_down`. -/
theorem c6_scroll_bounds_witness :
    (⟨2, ⟨[1, 2, 3], [], 0⟩⟩ : BWView Nat).content.view = 0 ∧
    0 ≤ ((([PageOp.up, PageOp.up, PageOp.down]).foldl
        (pageStep (fun n => [toString n])) ⟨2, ⟨[1, 2, 3], [], 0⟩⟩).content.view : ℤ) ∧
    ((([PageOp.up, PageOp.up, PageOp.down]).foldl
        (pageStep (fun n => [toString n])) ⟨2, ⟨[1, 2, 3], [], 0⟩⟩).content.view : ℤ) ≤
      max 0 ((totalLines (fun n => [toString n])
        (⟨2, ⟨[1, 2, 3], [], 0⟩⟩ : BWView Nat).content.buf : ℤ) - 2) :=
  ⟨rfl, c6_scroll_bounds (fun n => [toString n]) ⟨2, ⟨[1, 2, 3], [], 0⟩⟩
    [PageOp.up, PageOp.up, PageOp.down] rfl⟩

/-! ## C8: tokenizer error characterisation -/

/-- The cursor bookkeeping does not influence the state/token components:
`parseLoop` projects onto `tokenLoop`. -/
lemma parseLoop_proj :
    ∀ (cs : List Char) (st : PState) (token : List Char)
      (tokens : List (List Char)) (scur : Nat) (tcur : Option Nat),
    (parseLoop cs st token tokens scur tcur).map (fun p => (p.1, p.2.1)) =
      tokenLoop cs st token tokens := by
  intro cs
  induction cs with
  | nil =>
      intro st token tokens scur tcur
      simp only [parseLoop, tokenLoop]
      cases pend st token tokens <;> rfl
  | cons c cs ih =>
      intro st token tokens scur tcur
      cases hstep : pstep st c token tokens with
      | error e =>
          simp only [parseLoop, tokenLoop, hstep]
          rfl
      | ok p =>
          obtain ⟨st', token', tokens'⟩ := p
          simp only [parseLoop, tokenLoop, hstep]
          split <;> exact ih ..

/-- For any non-`Initial` state, one character step always succeeds, its
resulting state does not depend on the token accumulators, and it never
returns to `Initial`. -/
lemma pstep_ok (st : PState) (c : Char) (token : List Char)
    (tokens : List (List Char)) (hst : st ≠ .initial) :
    ∃ st' tk' tks' a b, pstep st c token tokens = .ok (st', tk', tks') ∧
      pstep st c [] [] = .ok (st', a, b) ∧ st' ≠ .initial := by
  cases st with
  | initial => exact absurd rfl hst
  | _ =>
      simp only [pstep]
      repeat' split
      all_goals exact ⟨_, _, _, _, _, rfl, rfl, by simp⟩

/-- Relating `tokenLoop` to the pure state automaton: from any non-`Initial`
state, the loop fails with `missingQuote` exactly in the quoted final states,
with `missingEscaped` exactly in the escaped final states, and otherwise
breaks successfully — out of `Unquoted` always with a nonempty token list.
The automaton never reaches `Initial` again. -/
lemma tokenLoop_cases :
    ∀ (cs : List Char) (st : PState) (token : List Char)
      (tokens : List (List Char)), st ≠ .initial →
    ((runState st cs = .simplyQuoted ∨ runState st cs = .doublyQuoted) →
      tokenLoop cs st token tokens = .error .missingQuote) ∧
    ((runState st cs = .unquotedEscaped ∨
      runState st cs = .simplyQuotedEscaped ∨
      runState st cs = .doublyQuotedEscaped) →
      tokenLoop cs st token tokens = .error .missingEscaped) ∧
    (runState st cs = .delimiter →
      ∃ toks, tokenLoop cs st token tokens = .ok (.delimiter, toks)) ∧
    (runState st cs = .unquoted →
      ∃ toks, toks ≠ [] ∧ tokenLoop cs st token tokens = .ok (.unquoted, toks)) ∧
    runState st cs ≠ .initial := by
  intro cs
  induction cs with
  | nil =>
      intro st token tokens hst
      cases st <;>
        simp_all [runState, tokenLoop, pend]
  | cons c cs ih =>
      intro st token tokens hst
      obtain ⟨st', tk', tks', a, b, hstep, hstep0, hne⟩ :=
        pstep_ok st c token tokens hst
      have hrun : runState st (c :: cs) = runState st' cs := by
        simp only [runState, hstep0]
      have htok : tokenLoop (c :: cs) st token tokens =
          tokenLoop cs st' tk' tks' := by
        simp only [tokenLoop, hstep]
      rw [hrun, htok]
      exact ih st' tk' tks' hne

lemma parseLoop_error_of {cs : List Char} {st : PState} {token : List Char}
    {tokens : List (List Char)} {e : PErr}
    (h : tokenLoop cs st token tokens = .error e) (scur : Nat)
    (tcur : Option Nat) : parseLoop cs st token tokens scur tcur = .error e := by
  have hp := parseLoop_proj cs st token tokens scur tcur
  rw [h] at hp
  cases hq : parseLoop cs st token tokens scur tcur with
  | error e' =>
      rw [hq] at hp
      simp only [Except.map] at hp
      injection hp with h1
      rw [h1]
  | ok p =>
      rw [hq] at hp
      simp only [Except.map] at hp
      exact absurd hp (by simp)

lemma parseLoop_ok_of {cs : List Char} {st : PState} {token : List Char}
    {tokens : List (List Char)} {st₁ : PState} {toks : List (List Char)}
    (h : tokenLoop cs st token tokens = .ok (st₁, toks)) (scur : Nat)
    (tcur : Option Nat) :
    ∃ tc, parseLoop cs st token tokens scur tcur = .ok (st₁, toks, tc) := by
  have hp := parseLoop_proj cs st token tokens scur tcur
  rw [h] at hp
  cases hq : parseLoop cs st token tokens scur tcur with
  | error e =>
      rw [hq] at hp
      simp only [Except.map] at hp
      exact absurd hp (by simp)
  | ok p =>
      rw [hq] at hp
      obtain ⟨st', T, tc⟩ := p
      simp only [Except.map] at hp
      injection hp with h1
      injection h1 with h2 h3
      subst h2
      subst h3
      exact ⟨tc, rfl⟩

/-- Behaviour of the loop-plus-epilogue from the `Delimiter` state (i.e. after
the leading `/`), for any cursor bookkeeping: never a panic, never a
missing-marker error, and the quote/escape errors exactly characterised by the
final automaton state. -/
lemma epilogue_char (cs : List Char) (scur : Nat) (tcur : Option Nat) :
    (parseEpilogue (parseLoop cs .delimiter [] [] scur tcur)).isSome = true ∧
    parseEpilogue (parseLoop cs .delimiter [] [] scur tcur) ≠
      some (.error .missingSlash) ∧
    (parseEpilogue (parseLoop cs .delimiter [] [] scur tcur) =
        some (.error .missingQuote) ↔
      (runState .delimiter cs = .simplyQuoted ∨
        runState .delimiter cs = .doublyQuoted)) ∧
    (parseEpilogue (parseLoop cs .delimiter [] [] scur tcur) =
        some (.error .missingEscaped) ↔
      (runState .delimiter cs = .unquotedEscaped ∨
        runState .delimiter cs = .simplyQuotedEscaped ∨
        runState .delimiter cs = .doublyQuotedEscaped)) := by
  obtain ⟨hQ, hE, hD, hU, hI⟩ :=
    tokenLoop_cases cs .delimiter [] [] (by decide)
  cases hrun : runState .delimiter cs with
  | initial => exact absurd hrun hI
  | simplyQuoted =>
      rw [parseLoop_error_of (hQ (Or.inl hrun)) scur tcur]
      refine ⟨?_, ?_, ?_, ?_⟩ <;> simp [parseEpilogue]
  | doublyQuoted =>
      rw [parseLoop_error_of (hQ (Or.inr hrun)) scur tcur]
      refine ⟨?_, ?_, ?_, ?_⟩ <;> simp [parseEpilogue]
  | unquotedEscaped =>
      rw [parseLoop_error_of (hE (Or.inl hrun)) scur tcur]
      refine ⟨?_, ?_, ?_, ?_⟩ <;> simp [parseEpilogue]
  | simplyQuotedEscaped =>
      rw [parseLoop_error_of (hE (Or.inr (Or.inl hrun))) scur tcur]
      refine ⟨?_, ?_, ?_, ?_⟩ <;> simp [parseEpilogue]
  | doublyQuotedEscaped =>
      rw [parseLoop_error_of (hE (Or.inr (Or.inr hrun))) scur tcur]
      refine ⟨?_, ?_, ?_, ?_⟩ <;> simp [parseEpilogue]
  | delimiter =>
      obtain ⟨toks, htl⟩ := hD hrun
      obtain ⟨tc, hpl⟩ := parseLoop_ok_of htl scur tcur
      rw [hpl]
      cases tc <;> refine ⟨?_, ?_, ?_, ?_⟩ <;> simp [parseEpilogue]
  | unquoted =>
      obtain ⟨toks, hne, htl⟩ := hU hrun
      obtain ⟨tc, hpl⟩ := parseLoop_ok_of htl scur tcur
      rw [hpl]
      cases tc with
      | some k => refine ⟨?_, ?_, ?_, ?_⟩ <;> simp [parseEpilogue]
      | none =>
          cases toks with
          | nil => exact absurd rfl hne
          | cons t ts => refine ⟨?_, ?_, ?_, ?_⟩ <;> simp [parseEpilogue]

/-- C8: `parse_with_cursor` never panics (the result is always `some`, i.e.
the `tokens.len() - 1` underflow is unreachable), and it returns an error if
and only if the line does not start with `/` (`missingSlash`), or the input
ends inside a single- or double-quoted span (`missingQuote`), or it ends right
after an unconsumed escape character (`missingEscaped`) — each failure a
distinct typed error value. -/
theorem c8_parse_errors (s : List Char) (k : Nat) :
    (parse_with_cursor s k).isSome = true ∧
    (parse_with_cursor s k = some (.error .missingSlash) ↔
      s.head? ≠ some '/') ∧
    (parse_with_cursor s k = some (.error .missingQuote) ↔
      (s.head? = some '/' ∧
        (runState .delimiter s.tail = .simplyQuoted ∨
          runState .delimiter s.tail = .doublyQuoted))) ∧
    (parse_with_cursor s k = some (.error .missingEscaped) ↔
      (s.head? = some '/' ∧
        (runState .delimiter s.tail = .unquotedEscaped ∨
          runState .delimiter s.tail = .simplyQuotedEscaped ∨
          runState .delimiter s.tail = .doublyQuotedEscaped))) := by
  cases s with
  | nil =>
      refine ⟨?_, ?_, ?_, ?_⟩ <;>
        simp [parse_with_cursor, parseLoop, pend, parseEpilogue]
  | cons c cs =>
      by_cases hc : c = '/'
      · subst hc
        have hunfold : parse_with_cursor ('/' :: cs) k =
            if k = 0 then parseEpilogue (parseLoop cs .delimiter [] [] 0 (some 0))
            else parseEpilogue (parseLoop cs .delimiter [] [] (k - 1) none) := by
          by_cases hk : k = 0 <;>
            simp [parse_with_cursor, parseLoop, pstep, hk]
        rw [hunfold]
        by_cases hk : k = 0
        case pos =>
          rw [if_pos hk]
          obtain ⟨h1, h2, h3, h4⟩ := epilogue_char cs 0 (some 0)
          refine ⟨h1, ?_, ?_, ?_⟩
          · exact ⟨fun habs => absurd habs h2, fun hr => absurd rfl hr⟩
          · exact ⟨fun h => ⟨rfl, h3.mp h⟩, fun h => h3.mpr h.2⟩
          · exact ⟨fun h => ⟨rfl, h4.mp h⟩, fun h => h4.mpr h.2⟩
        case neg =>
          rw [if_neg hk]
          obtain ⟨h1, h2, h3, h4⟩ := epilogue_char cs (k - 1) none
          refine ⟨h1, ?_, ?_, ?_⟩
          · exact ⟨fun habs => absurd habs h2, fun hr => absurd rfl hr⟩
          · exact ⟨fun h => ⟨rfl, h3.mp h⟩, fun h => h3.mpr h.2⟩
          · exact ⟨fun h => ⟨rfl, h4.mp h⟩, fun h => h4.mpr h.2⟩
      · refine ⟨?_, ?_, ?_, ?_⟩ <;>
          simp [parse_with_cursor, parseLoop, pstep, parseEpilogue, hc]

/-! ## C5: parse/assemble round trip -/

lemma escChar_qdouble (c : Char) : (escChar c .qdouble).2 = .qdouble := by
  unfold escChar
  repeat' split
  all_goals simp_all

lemma escChar_qsingle (c : Char) : (escChar c .qsingle).2 = .qsingle := by
  unfold escChar
  repeat' split
  all_goals simp_all

lemma escFold_qdouble : ∀ (a : List Char), (escFold a .qdouble).2 = .qdouble
  | [] => rfl
  | c :: cs => by
      simp only [escFold]
      rw [escChar_qdouble]
      exact escFold_qdouble cs

lemma escFold_qsingle : ∀ (a : List Char), (escFold a .qsingle).2 = .qsingle
  | [] => rfl
  | c :: cs => by
      simp only [escFold]
      rw [escChar_qsingle]
      exact escFold_qsingle cs

lemma escChar_qnone_mono {c : Char} {q : Qs}
    (h : (escChar c q).2 = .qnone) : q = .qnone := by
  unfold escChar at h
  repeat' split at h
  all_goals simp_all

lemma escFold_qnone_mono :
    ∀ (a : List Char) (q : Qs), (escFold a q).2 = .qnone → q = .qnone
  | [], _, h => h
  | c :: cs, q, h => by
      simp only [escFold] at h
      exact escChar_qnone_mono (escFold_qnone_mono cs _ h)

lemma tokenLoop_cons {c : Char} {cs : List Char} {st st' : PState}
    {tok tok' : List Char} {T T' : List (List Char)}
    (h : pstep st c tok T = .ok (st', tok', T')) :
    tokenLoop (c :: cs) st tok T = tokenLoop cs st' tok' T' := by
  simp only [tokenLoop, h]

/-- Parsing the escaped body of an argument inside a single-quoted span:
every character comes back verbatim and the state returns to `SimplyQuoted`.
The hypotheses say the escape loop neither starts from nor ends in the
double-quote state — which is exactly when `escape` wraps in `'`. -/
lemma tokenLoop_escBody_sq :
    ∀ (a : List Char) (q : Qs), q ≠ .qdouble → (escFold a q).2 ≠ .qdouble →
    ∀ (rest tok : List Char) (T : List (List Char)),
    tokenLoop ((escFold a q).1 ++ rest) .simplyQuoted tok T =
      tokenLoop rest .simplyQuoted (tok ++ a) T := by
  intro a
  induction a with
  | nil =>
      intro q hq hqf rest tok T
      simp [escFold]
  | cons c cs ih =>
      intro q hq hqf rest tok T
      have hqf' : (escFold cs (escChar c q).2).2 ≠ .qdouble := by
        simpa [escFold] using hqf
      have hq' : (escChar c q).2 ≠ .qdouble := by
        intro hdd
        exact hqf' (by rw [hdd]; exact escFold_qdouble cs)
      by_cases h1 : c = '\\'
      · subst h1
        have he : escChar '\\' q = (['\\', '\\'], q) := by simp [escChar]
        rw [he] at hqf'
        simp only [escFold, he, List.append_assoc, List.cons_append,
          List.nil_append]
        rw [tokenLoop_cons (show pstep .simplyQuoted '\\' tok T =
          .ok (.simplyQuotedEscaped, tok, T) by simp [pstep])]
        rw [tokenLoop_cons (show pstep .simplyQuotedEscaped '\\' tok T =
          .ok (.simplyQuoted, tok ++ ['\\'], T) by simp [pstep])]
        rw [ih q hq hqf' rest (tok ++ ['\\']) T]
        simp
      by_cases h2 : c = ' '
      · subst h2
        have he : escChar ' ' q =
            ([' '], if q = .qnone then Qs.qspace else q) := by
          simp [escChar]
        rw [he] at hqf' hq'
        simp only [escFold, he, List.append_assoc, List.cons_append,
          List.nil_append]
        rw [tokenLoop_cons (show pstep .simplyQuoted ' ' tok T =
          .ok (.simplyQuoted, tok ++ [' '], T) by simp [pstep])]
        rw [ih _ hq' hqf' rest (tok ++ [' ']) T]
        simp
      by_cases h3 : c = '\''
      · subst h3
        cases q with
        | qdouble => exact absurd rfl hq
        | qsingle =>
            have he : escChar '\'' .qsingle = (['\\', '\''], .qsingle) := by
              simp [escChar]
            rw [he] at hqf'
            simp only [escFold, he, List.append_assoc, List.cons_append,
              List.nil_append]
            rw [tokenLoop_cons (show pstep .simplyQuoted '\\' tok T =
              .ok (.simplyQuotedEscaped, tok, T) by simp [pstep])]
            rw [tokenLoop_cons (show pstep .simplyQuotedEscaped '\'' tok T =
              .ok (.simplyQuoted, tok ++ ['\''], T) by simp [pstep])]
            rw [ih .qsingle (by simp) hqf' rest (tok ++ ['\'']) T]
            simp
        | qnone =>
            have he : escChar '\'' .qnone = (['\''], .qdouble) := by
              simp [escChar]
            rw [he] at hq'
            exact absurd rfl hq'
        | qspace =>
            have he : escChar '\'' .qspace = (['\''], .qdouble) := by
              simp [escChar]
            rw [he] at hq'
            exact absurd rfl hq'
      by_cases h4 : c = '"'
      · subst h4
        have hout : (escChar '"' q).1 = ['"'] := by
          cases q with
          | qdouble => exact absurd rfl hq
          | qsingle => simp [escChar]
          | qnone => simp [escChar]
          | qspace => simp [escChar]
        simp only [escFold, hout, List.append_assoc, List.cons_append,
          List.nil_append]
        rw [tokenLoop_cons (show pstep .simplyQuoted '"' tok T =
          .ok (.simplyQuoted, tok ++ ['"'], T) by simp [pstep])]
        rw [ih _ hq' hqf' rest (tok ++ ['"']) T]
        simp
      · have he : escChar c q = ([c], q) := by
          simp [escChar, h1, h2, h3, h4]
        rw [he] at hqf'
        simp only [escFold, he, List.append_assoc, List.cons_append,
          List.nil_append]
        rw [tokenLoop_cons (show pstep .simplyQuoted c tok T =
          .ok (.simplyQuoted, tok ++ [c], T) by simp [pstep, h1, h3])]
        rw [ih q hq hqf' rest (tok ++ [c]) T]
        simp

/-- Parsing the escaped body of an argument inside a double-quoted span,
symmetric to `tokenLoop_escBody_sq`. -/
lemma tokenLoop_escBody_dq :
    ∀ (a : List Char) (q : Qs), q ≠ .qsingle → (escFold a q).2 ≠ .qsingle →
    ∀ (rest tok : List Char) (T : List (List Char)),
    tokenLoop ((escFold a q).1 ++ rest) .doublyQuoted tok T =
      tokenLoop rest .doublyQuoted (tok ++ a) T := by
  intro a
  induction a with
  | nil =>
      intro q hq hqf rest tok T
      simp [escFold]
  | cons c cs ih =>
      intro q hq hqf rest tok T
      have hqf' : (escFold cs (escChar c q).2).2 ≠ .qsingle := by
        simpa [escFold] using hqf
      have hq' : (escChar c q).2 ≠ .qsingle := by
        intro hdd
        exact hqf' (by rw [hdd]; exact escFold_qsingle cs)
      by_cases h1 : c = '\\'
      · subst h1
        have he : escChar '\\' q = (['\\', '\\'], q) := by simp [escChar]
        rw [he] at hqf'
        simp only [escFold, he, List.append_assoc, List.cons_append,
          List.nil_append]
        rw [tokenLoop_cons (show pstep .doublyQuoted '\\' tok T =
          .ok (.doublyQuotedEscaped, tok, T) by simp [pstep])]
        rw [tokenLoop_cons (show pstep .doublyQuotedEscaped '\\' tok T =
          .ok (.doublyQuoted, tok ++ ['\\'], T) by simp [pstep])]
        rw [ih q hq hqf' rest (tok ++ ['\\']) T]
        simp
      by_cases h2 : c = ' '
      · subst h2
        have he : escChar ' ' q =
            ([' '], if q = .qnone then Qs.qspace else q) := by
          simp [escChar]
        rw [he] at hqf' hq'
        simp only [escFold, he, List.append_assoc, List.cons_append,
          List.nil_append]
        rw [tokenLoop_cons (show pstep .doublyQuoted ' ' tok T =
          .ok (.doublyQuoted, tok ++ [' '], T) by simp [pstep])]
        rw [ih _ hq' hqf' rest (tok ++ [' ']) T]
        simp
      by_cases h3 : c = '"'
      · subst h3
        cases q with
        | qsingle => exact absurd rfl hq
        | qdouble =>
            have he : escChar '"' .qdouble = (['\\', '"'], .qdouble) := by
              simp [escChar]
            rw [he] at hqf'
            simp only [escFold, he, List.append_assoc, List.cons_append,
              List.nil_append]
            rw [tokenLoop_cons (show pstep .doublyQuoted '\\' tok T =
              .ok (.doublyQuotedEscaped, tok, T) by simp [pstep])]
            rw [tokenLoop_cons (show pstep .doublyQuotedEscaped '"' tok T =
              .ok (.doublyQuoted, tok ++ ['"'], T) by simp [pstep])]
            rw [ih .qdouble (by simp) hqf' rest (tok ++ ['"']) T]
            simp
        | qnone =>
            have he : escChar '"' .qnone = (['"'], .qsingle) := by
              simp [escChar]
            rw [he] at hq'
            exact absurd rfl hq'
        | qspace =>
            have he : escChar '"' .qspace = (['"'], .qsingle) := by
              simp [escChar]
            rw [he] at hq'
            exact absurd rfl hq'
      by_cases h4 : c = '\''
      · subst h4
        have hout : (escChar '\'' q).1 = ['\''] := by
          cases q with
          | qsingle => exact absurd rfl hq
          | qdouble => simp [escChar]
          | qnone => simp [escChar]
          | qspace => simp [escChar]
        simp only [escFold, hout, List.append_assoc, List.cons_append,
          List.nil_append]
        rw [tokenLoop_cons (show pstep .doublyQuoted '\'' tok T =
          .ok (.doublyQuoted, tok ++ ['\''], T) by simp [pstep])]
        rw [ih _ hq' hqf' rest (tok ++ ['\'']) T]
        simp
      · have he : escChar c q = ([c], q) := by
          simp [escChar, h1, h2, h3, h4]
        rw [he] at hqf'
        simp only [escFold, he, List.append_assoc, List.cons_append,
          List.nil_append]
        rw [tokenLoop_cons (show pstep .doublyQuoted c tok T =
          .ok (.doublyQuoted, tok ++ [c], T) by simp [pstep, h1, h3])]
        rw [ih q hq hqf' rest (tok ++ [c]) T]
        simp

/-- Parsing the escaped body of an argument needing no quoting (the escape
loop ends with `quote = None`: the argument has no space and no quote
character) in the `Unquoted` state. -/
lemma tokenLoop_escBody_uq :
    ∀ (a : List Char), (escFold a .qnone).2 = .qnone →
    ∀ (rest tok : List Char) (T : List (List Char)),
    tokenLoop ((escFold a .qnone).1 ++ rest) .unquoted tok T =
      tokenLoop rest .unquoted (tok ++ a) T := by
  intro a
  induction a with
  | nil =>
      intro hf rest tok T
      simp [escFold]
  | cons c cs ih =>
      intro hf rest tok T
      have hf' : (escFold cs (escChar c .qnone).2).2 = .qnone := by
        simpa [escFold] using hf
      have hq' : (escChar c .qnone).2 = .qnone := escFold_qnone_mono cs _ hf'
      by_cases h1 : c = '\\'
      · subst h1
        have he : escChar '\\' .qnone = (['\\', '\\'], .qnone) := by
          simp [escChar]
        rw [he] at hf'
        simp only [escFold, he, List.append_assoc, List.cons_append,
          List.nil_append]
        rw [tokenLoop_cons (show pstep .unquoted '\\' tok T =
          .ok (.unquotedEscaped, tok, T) by simp [pstep])]
        rw [tokenLoop_cons (show pstep .unquotedEscaped '\\' tok T =
          .ok (.unquoted, tok ++ ['\\'], T) by simp [pstep])]
        rw [ih hf' rest (tok ++ ['\\']) T]
        simp
      by_cases h2 : c = ' '
      · subst h2
        have : (escChar ' ' .qnone).2 = .qspace := by simp [escChar]
        rw [this] at hq'
        exact nomatch hq'
      by_cases h3 : c = '\''
      · subst h3
        have : (escChar '\'' .qnone).2 = .qdouble := by simp [escChar]
        rw [this] at hq'
        exact nomatch hq'
      by_cases h4 : c = '"'
      · subst h4
        have : (escChar '"' .qnone).2 = .qsingle := by simp [escChar]
        rw [this] at hq'
        exact nomatch hq'
      · have he : escChar c .qnone = ([c], .qnone) := by
          simp [escChar, h1, h2, h3, h4]
        rw [he] at hf'
        simp only [escFold, he, List.append_assoc, List.cons_append,
          List.nil_append]
        rw [tokenLoop_cons (show pstep .unquoted c tok T =
          .ok (.unquoted, tok ++ [c], T) by simp [pstep, h1, h2, h3, h4])]
        rw [ih hf' rest (tok ++ [c]) T]
        simp

/-- Consuming one whole escaped (nonempty) argument from the `Delimiter`
state: whatever quoting `escape` chose, the parser ends in `Unquoted` holding
exactly the original argument. -/
lemma tokenLoop_escape (a : List Char) (ha : a ≠ []) (rest : List Char)
    (T : List (List Char)) :
    tokenLoop (escape a ++ rest) .delimiter [] T =
      tokenLoop rest .unquoted a T := by
  cases hq0 : (escFold a .qnone).2 with
  | qnone =>
      have hesc : escape a = (escFold a .qnone).1 := by
        simp [escape, hq0]
      rw [hesc]
      cases a with
      | nil => exact absurd rfl ha
      | cons c cs =>
          have hf' : (escFold cs (escChar c .qnone).2).2 = .qnone := by
            simpa [escFold] using hq0
          have hq' : (escChar c .qnone).2 = .qnone :=
            escFold_qnone_mono cs _ hf'
          by_cases h1 : c = '\\'
          · subst h1
            have he : escChar '\\' .qnone = (['\\', '\\'], .qnone) := by
              simp [escChar]
            rw [he] at hf'
            simp only [escFold, he, List.append_assoc, List.cons_append,
              List.nil_append]
            rw [tokenLoop_cons (show pstep .delimiter '\\' [] T =
              .ok (.unquotedEscaped, [], T) by simp [pstep])]
            rw [tokenLoop_cons (show pstep .unquotedEscaped '\\' [] T =
              .ok (.unquoted, ['\\'], T) by simp [pstep])]
            rw [show (['\\'] : List Char) = [] ++ ['\\'] from rfl]
            rw [tokenLoop_escBody_uq cs hf' rest ([] ++ ['\\']) T]
            simp
          by_cases h2 : c = ' '
          · subst h2
            have : (escChar ' ' .qnone).2 = .qspace := by simp [escChar]
            rw [this] at hq'
            exact nomatch hq'
          by_cases h3 : c = '\''
          · subst h3
            have : (escChar '\'' .qnone).2 = .qdouble := by simp [escChar]
            rw [this] at hq'
            exact nomatch hq'
          by_cases h4 : c = '"'
          · subst h4
            have : (escChar '"' .qnone).2 = .qsingle := by simp [escChar]
            rw [this] at hq'
            exact nomatch hq'
          · have he : escChar c .qnone = ([c], .qnone) := by
              simp [escChar, h1, h2, h3, h4]
            rw [he] at hf'
            simp only [escFold, he, List.append_assoc, List.cons_append,
              List.nil_append]
            rw [tokenLoop_cons (show pstep .delimiter c [] T =
              .ok (.unquoted, [c], T) by simp [pstep, h1, h2, h3, h4])]
            rw [show ([c] : List Char) = [] ++ [c] from rfl]
            rw [tokenLoop_escBody_uq cs hf' rest ([] ++ [c]) T]
            simp
  | qspace =>
      have hesc : escape a = '"' :: ((escFold a .qnone).1 ++ ['"']) := by
        simp [escape, hq0]
      rw [hesc]
      simp only [List.cons_append, List.append_assoc, List.nil_append]
      rw [tokenLoop_cons (show pstep .delimiter '"' [] T =
        .ok (.doublyQuoted, [], T) by simp [pstep])]
      rw [tokenLoop_escBody_dq a .qnone (by simp) (by rw [hq0]; simp)
        ('"' :: rest) [] T]
      rw [tokenLoop_cons (show pstep .doublyQuoted '"' ([] ++ a) T =
        .ok (.unquoted, [] ++ a, T) by simp [pstep])]
      simp
  | qdouble =>
      have hesc : escape a = '"' :: ((escFold a .qnone).1 ++ ['"']) := by
        simp [escape, hq0]
      rw [hesc]
      simp only [List.cons_append, List.append_assoc, List.nil_append]
      rw [tokenLoop_cons (show pstep .delimiter '"' [] T =
        .ok (.doublyQuoted, [], T) by simp [pstep])]
      rw [tokenLoop_escBody_dq a .qnone (by simp) (by rw [hq0]; simp)
        ('"' :: rest) [] T]
      rw [tokenLoop_cons (show pstep .doublyQuoted '"' ([] ++ a) T =
        .ok (.unquoted, [] ++ a, T) by simp [pstep])]
      simp
  | qsingle =>
      have hesc : escape a = '\'' :: ((escFold a .qnone).1 ++ ['\'']) := by
        simp [escape, hq0]
      rw [hesc]
      simp only [List.cons_append, List.append_assoc, List.nil_append]
      rw [tokenLoop_cons (show pstep .delimiter '\'' [] T =
        .ok (.simplyQuoted, [], T) by simp [pstep])]
      rw [tokenLoop_escBody_sq a .qnone (by simp) (by rw [hq0]; simp)
        ('\'' :: rest) [] T]
      rw [tokenLoop_cons (show pstep .simplyQuoted '\'' ([] ++ a) T =
        .ok (.unquoted, [] ++ a, T) by simp [pstep])]
      simp

/-- Running the tokenizer over a whole assembled argument list (without the
leading `/`): it ends in `Unquoted` having emitted exactly the arguments. -/
lemma tokenLoop_assembleArgs :
    ∀ (args : List (List Char)) (T : List (List Char)), args ≠ [] →
      (∀ x ∈ args, x ≠ []) →
    tokenLoop (assembleArgs args) .delimiter [] T =
      .ok (.unquoted, T ++ args) := by
  intro args
  induction args with
  | nil => exact fun T h _ => absurd rfl h
  | cons a args ih =>
      intro T _ hall
      have ha : a ≠ [] := hall a (by simp)
      cases args with
      | nil =>
          rw [show assembleArgs [a] = escape a from rfl,
            (List.append_nil (escape a)).symm]
          rw [tokenLoop_escape a ha [] T]
          simp [tokenLoop, pend]
      | cons b args' =>
          rw [show assembleArgs (a :: b :: args') =
            escape a ++ (' ' :: assembleArgs (b :: args')) from rfl]
          rw [tokenLoop_escape a ha _ T]
          rw [tokenLoop_cons (show pstep .unquoted ' ' a T =
            .ok (.delimiter, [], T ++ [a]) by simp [pstep])]
          rw [ih (T ++ [a]) (by simp) (fun x hx => hall x (by simp [hx]))]
          simp

/-- C5 (amended): for every nonempty argument list whose arguments are all
nonempty, `parse_with_cursor (assemble args) k` succeeds for every cursor
position `k` and returns exactly the original arguments. -/
theorem c5_roundtrip (args : List (List Char)) (k : Nat) (hne : args ≠ [])
    (hall : ∀ a ∈ args, a ≠ []) :
    ∃ cur, parse_with_cursor (assemble args) k =
      some (.ok ⟨args, cur⟩) := by
  obtain ⟨a, as, rfl⟩ : ∃ a as, args = a :: as := by
    cases args with
    | nil => exact absurd rfl hne
    | cons a as => exact ⟨a, as, rfl⟩
  have hrun := tokenLoop_assembleArgs (a :: as) [] hne hall
  rw [List.nil_append] at hrun
  have hunfold : parse_with_cursor (assemble (a :: as)) k =
      if k = 0 then
        parseEpilogue (parseLoop (assembleArgs (a :: as)) .delimiter [] [] 0
          (some 0))
      else
        parseEpilogue (parseLoop (assembleArgs (a :: as)) .delimiter [] []
          (k - 1) none) := by
    by_cases hk : k = 0 <;>
      simp [parse_with_cursor, assemble, parseLoop, pstep, hk]
  rw [hunfold]
  by_cases hk : k = 0
  · rw [if_pos hk]
    obtain ⟨tc, hpl⟩ := parseLoop_ok_of hrun 0 (some 0)
    rw [hpl]
    cases tc with
    | some k' => exact ⟨k', by simp [parseEpilogue, mkCmd]⟩
    | none => exact ⟨(a :: as).length - 1, by simp [parseEpilogue, mkCmd]⟩
  · rw [if_neg hk]
    obtain ⟨tc, hpl⟩ := parseLoop_ok_of hrun (k - 1) none
    rw [hpl]
    cases tc with
    | some k' => exact ⟨k', by simp [parseEpilogue, mkCmd]⟩
    | none => exact ⟨(a :: as).length - 1, by simp [parseEpilogue, mkCmd]⟩

/-- C5 witness: the round trip at the concrete argument list `["a", "b"]`
with cursor 1. -/
theorem c5_roundtrip_witness :
    ([['a'], ['b']] : List (List Char)) ≠ [] ∧
    ∃ cur, parse_with_cursor (assemble [['a'], ['b']]) 1 =
      some (.ok ⟨[['a'], ['b']], cur⟩) :=
  ⟨by decide, c5_roundtrip [['a'], ['b']] 1 (by decide) (by decide)⟩

/-- C5 counterexample: the empty argument (no control characters in it) is
lost by the round trip: `assemble ["a", ""] = "/a "` parses back as the single
argument list `["a"]`. -/
theorem c5_counterexample :
    parse_with_cursor (assemble [['a'], []]) 0 = some (.ok ⟨[['a']], 0⟩) ∧
    ([['a']] : List (List Char)) ≠ [['a'], []] := by
  exact ⟨by decide, by decide⟩

/-! ## C1, C2, C10: LinearLayout measurement -/

/-- The children of a view as a plain list. -/
def VList.toList : VList → List VTree
  | .nil => []
  | .cons c cs => c :: VList.toList cs

def childrenOf : VTree → List VTree
  | .linear _ _ _ _ _ _ _ cs => cs.toList
  | .frame _ _ _ _ .none => []
  | .frame _ _ _ _ (.some t) => [t]
  | .leaf _ _ _ _ _ _ => []

/-- A horizontal `LinearLayout` with two fixed 2×1 children, offered a
10×5 spec. -/
def c1tree : VTree :=
  .linear .horizontal .matchParent .matchParent 0 0 0 0
    (.cons (.leaf (.absolute 2) (.absolute 1) 0 0 0 0)
      (.cons (.leaf (.absolute 2) (.absolute 1) 0 0 0 0) .nil))

/-- C1: on the horizontal failing input the container resolves `h = 4` — the
accumulated main-axis width leaks into the cross-axis maximum via
`self.h = max(self.w, child_h)` — although every child resolves height 1, so
the claimed cross-axis rule (`h = max child heights = 1`) is violated; `w = 4`
is the (correct) main-axis sum. -/
theorem c1_horizontal_cross_axis_bug :
    (measure (some 10) (some 5) c1tree).map
        (fun t => (wOf t, hOf t, (childrenOf t).map hOf)) =
      some (4, 4, [1, 1]) := by
  decide

/-- A vertical `LinearLayout` with one fixed 5×5 child, offered height 3. -/
def c2tree : VTree :=
  .linear .vertical .matchParent .matchParent 0 0 0 0
    (.cons (.leaf (.absolute 5) (.absolute 5) 0 0 0 0) .nil)

/-- C2: when the children's intrinsic main-axis sum (5) exceeds the offered
bound (3), the source's `max_height - min_height` is evaluated without a
clamp; its u16 underflow is the modelled panic — `measure` aborts instead of
clamping the remainder to 0. -/
theorem c2_remaining_underflow :
    measure (some 10) (some 3) c2tree = none := by
  decide

/-- A horizontal `LinearLayout` with a single `MatchParent`×`MatchParent`
child. -/
def c10tree : VTree :=
  .linear .horizontal .matchParent .matchParent 0 0 0 0
    (.cons (.leaf .matchParent .matchParent 0 0 0 0) .nil)

/-- C10: `get_measured_width`/`get_measured_height` return `None` exactly when
the stored `w`/`h` is 0, so a view measuring to 0 is indistinguishable from an
unmeasured one: a `MatchParent` leaf measured without a spec resolves to 0×0,
and in the resolve pass `LinearLayout` counts it as unsized and hands it the
full distributed share (width 10 of the offered 10). -/
theorem c10_zero_measured_unsized :
    (∀ v : VTree, gmW v = none ↔ wOf v = 0) ∧
    (∀ v : VTree, gmH v = none ↔ hOf v = 0) ∧
    measure none none (VTree.leaf .matchParent .matchParent 0 0 3 7) =
      some (VTree.leaf .matchParent .matchParent 0 0 0 0) ∧
    (measure (some 10) (some 5) c10tree).map
        (fun t => (childrenOf t).map wOf) = some [10] := by
  refine ⟨?_, ?_, by decide, by decide⟩
  · intro v
    simp only [gmW]
    split <;> simp <;> omega
  · intro v
    simp only [gmH]
    split <;> simp <;> omega

/-! ## C9: measure+layout idempotence

`measure` writes only `w`/`h` (reading none of `x`/`y`/`w`/`h`), and `layout`
writes only `x`/`y` (reading the children's `w`/`h`).  We capture this with
two erasures: `stripG` zeroes all geometry (`x`,`y`,`w`,`h`) and `stripS`
zeroes the positions (`x`,`y`) only; `measure`'s outcome depends only on
`stripG` of the input and `layout`'s only on `stripS`, while both preserve the
respective erasures — which yields idempotence of `measure`+`layout`. -/

mutual

/-- Erase all geometry. -/
def stripG : VTree → VTree
  | .leaf dw dh _ _ _ _ => .leaf dw dh 0 0 0 0
  | .frame _ _ _ _ c => .frame 0 0 0 0 (stripGO c)
  | .linear o dw dh _ _ _ _ cs => .linear o dw dh 0 0 0 0 (stripGL cs)

def stripGO : VOpt → VOpt
  | .none => .none
  | .some t => .some (stripG t)

def stripGL : VList → VList
  | .nil => .nil
  | .cons c cs => .cons (stripG c) (stripGL cs)

end

mutual

/-- Erase the positions, keep the measured sizes. -/
def stripS : VTree → VTree
  | .leaf dw dh _ _ w h => .leaf dw dh 0 0 w h
  | .frame _ _ w h c => .frame 0 0 w h (stripSO c)
  | .linear o dw dh _ _ w h cs => .linear o dw dh 0 0 w h (stripSL cs)

def stripSO : VOpt → VOpt
  | .none => .none
  | .some t => .some (stripS t)

def stripSL : VList → VList
  | .nil => .nil
  | .cons c cs => .cons (stripS c) (stripSL cs)

end

lemma wOf_stripS (v : VTree) : wOf (stripS v) = wOf v := by
  cases v <;> rfl

lemma hOf_stripS (v : VTree) : hOf (stripS v) = hOf v := by
  cases v <;> rfl

lemma gmW_stripS (v : VTree) : gmW (stripS v) = gmW v := by
  simp [gmW, wOf_stripS]

lemma gmH_stripS (v : VTree) : gmH (stripS v) = gmH v := by
  simp [gmH, hOf_stripS]

lemma gmList_stripSL : ∀ (cs : VList), gmList (stripSL cs) = gmList cs
  | .nil => rfl
  | .cons c cs => by
      simp only [stripSL, gmList, gmW_stripS, gmH_stripS,
        gmList_stripSL cs]

mutual

theorem stripG_stripS : ∀ (v : VTree), stripG (stripS v) = stripG v
  | .leaf dw dh x y w h => rfl
  | .frame x y w h c => by
      simp only [stripS, stripG, stripGO_stripSO c]
  | .linear o dw dh x y w h cs => by
      simp only [stripS, stripG, stripGL_stripSL cs]

theorem stripGO_stripSO : ∀ (c : VOpt), stripGO (stripSO c) = stripGO c
  | .none => rfl
  | .some t => by
      simp only [stripSO, stripGO, stripG_stripS t]

theorem stripGL_stripSL : ∀ (cs : VList), stripGL (stripSL cs) = stripGL cs
  | .nil => rfl
  | .cons c cs => by
      simp only [stripSL, stripGL, stripG_stripS c, stripGL_stripSL cs]

end

mutual

/-- `measure` writes only `w`/`h`: the full geometry erasure of its output
equals that of its input. -/
theorem measure_pres_stripG :
    ∀ (ws hs : Option Nat) (v v' : VTree),
      measure ws hs v = some v' → stripG v' = stripG v
  | ws, hs, .leaf dw dh x y w h, v', hm => by
      simp only [measure] at hm
      repeat' split at hm
      · exact nomatch hm
      · exact nomatch hm
      · injection hm with hm
        subst hm
        rfl
  | ws, hs, .frame x y w h .none, v', hm => by
      simp only [measure] at hm
      injection hm with hm
      subst hm
      rfl
  | ws, hs, .frame x y w h (.some t), v', hm => by
      simp only [measure] at hm
      cases hmt : measure (some (ws.getD 0)) (some (hs.getD 0)) t with
      | none => rw [hmt] at hm; exact nomatch hm
      | some t' =>
          simp only [hmt] at hm
          injection hm with hm
          subst hm
          simp only [stripG, stripGO]
          rw [measure_pres_stripG _ _ t t' hmt]
  | ws, hs, .linear o dw dh x y w h cs, v', hm => by
      simp only [measure] at hm
      cases hml : measureList cs with
      | none => rw [hml] at hm; exact nomatch hm
      | some cs₁ =>
          simp only [hml] at hm
          cases hr1 : remaining (specFor dw ws) (minWidth o (gmList cs₁)) with
          | none => rw [hr1] at hm; exact nomatch hm
          | some remW =>
          simp only [hr1] at hm
          cases hr2 : remaining (specFor dh hs) (minHeight o (gmList cs₁)) with
          | none => rw [hr2] at hm; exact nomatch hm
          | some remH =>
          simp only [hr2] at hm
          cases hrf : resolveFold o (specFor dw ws) (specFor dh hs)
              (splittedW o (specFor dw ws) remW (gmList cs₁))
              (splittedH o (specFor dh hs) remH (gmList cs₁))
              cs (gmList cs₁) 0 0 with
          | none => rw [hrf] at hm; exact nomatch hm
          | some out =>
          obtain ⟨cs₂, fw, fh⟩ := out
          simp only [hrf] at hm
          injection hm with hm
          subst hm
          simp only [stripG]
          rw [resolveFold_pres_stripG _ _ _ _ _ _ _ _ _ _ hrf]

theorem measureList_pres_stripG :
    ∀ (cs cs' : VList), measureList cs = some cs' → stripGL cs' = stripGL cs
  | .nil, cs', hm => by
      simp only [measureList] at hm
      injection hm with hm
      subst hm
      rfl
  | .cons c cs, cs', hm => by
      simp only [measureList] at hm
      cases hc : measure none none c with
      | none => rw [hc] at hm; exact nomatch hm
      | some c1 =>
          simp only [hc] at hm
          cases hl : measureList cs with
          | none => rw [hl] at hm; exact nomatch hm
          | some cs1 =>
              simp only [hl] at hm
              injection hm with hm
              subst hm
              simp only [stripGL]
              rw [measure_pres_stripG _ _ c c1 hc,
                measureList_pres_stripG cs cs1 hl]

theorem resolveFold_pres_stripG :
    ∀ (o : Orientation) (mW mH sW sH : Option Nat) (cs : VList)
      (gms : List (Option Nat × Option Nat)) (w h : Nat)
      (out : VList × Nat × Nat),
      resolveFold o mW mH sW sH cs gms w h = some out →
      stripGL out.1 = stripGL cs
  | o, mW, mH, sW, sH, .nil, gms, w, h, out, hm => by
      simp only [resolveFold] at hm
      injection hm with hm
      subst hm
      rfl
  | o, mW, mH, sW, sH, .cons c cs, gms, w, h, out, hm => by
      simp only [resolveFold] at hm
      cases hc1 : capMain (o = .horizontal) mW
          (pickSpec (gms.headD (none, none)).1 sW) w with
      | none => rw [hc1] at hm; exact nomatch hm
      | some wSpec =>
      simp only [hc1] at hm
      cases hc2 : capMain (o = .vertical) mH
          (pickSpec (gms.headD (none, none)).2 sH) h with
      | none => rw [hc2] at hm; exact nomatch hm
      | some hSpec =>
      simp only [hc2] at hm
      cases hmc : measure wSpec hSpec c with
      | none => rw [hmc] at hm; exact nomatch hm
      | some c' =>
      simp only [hmc] at hm
      cases hgw : gmW c' with
      | none => rw [hgw] at hm; exact nomatch hm
      | some cw =>
      simp only [hgw] at hm
      cases hgh : gmH c' with
      | none => rw [hgh] at hm; exact nomatch hm
      | some ch =>
      simp only [hgh] at hm
      cases o with
      | vertical =>
          cases hrec : resolveFold .vertical mW mH sW sH cs gms.tail
              (max w cw) (h + ch) with
          | none => rw [hrec] at hm; exact nomatch hm
          | some out2 =>
              obtain ⟨cs₂, fw, fh⟩ := out2
              simp only [hrec] at hm
              injection hm with hm
              subst hm
              simp only [stripGL]
              rw [measure_pres_stripG _ _ c c' hmc,
                resolveFold_pres_stripG _ _ _ _ _ _ _ _ _ _ hrec]
      | horizontal =>
          cases hrec : resolveFold .horizontal mW mH sW sH cs gms.tail
              (w + cw) (max (w + cw) ch) with
          | none => rw [hrec] at hm; exact nomatch hm
          | some out2 =>
              obtain ⟨cs₂, fw, fh⟩ := out2
              simp only [hrec] at hm
              injection hm with hm
              subst hm
              simp only [stripGL]
              rw [measure_pres_stripG _ _ c c' hmc,
                resolveFold_pres_stripG _ _ _ _ _ _ _ _ _ _ hrec]

end

mutual

/-- `layout` writes only `x`/`y`: the full geometry erasure of its output
equals that of its input. -/
theorem layout_pres_stripG :
    ∀ (t l : Nat) (v g : VTree), layout t l v = some g → stripG g = stripG v
  | t, l, .leaf dw dh x y w h, g, hm => by
      simp only [layout] at hm
      injection hm with hm
      subst hm
      rfl
  | t, l, .frame x y w h .none, g, hm => by
      simp only [layout] at hm
      injection hm with hm
      subst hm
      rfl
  | t, l, .frame x y w h (.some u), g, hm => by
      simp only [layout] at hm
      cases hl : layout t l u with
      | none => rw [hl] at hm; exact nomatch hm
      | some u' =>
          simp only [hl] at hm
          injection hm with hm
          subst hm
          simp only [stripG, stripGO]
          rw [layout_pres_stripG _ _ u u' hl]
  | t, l, .linear o dw dh x y w h cs, g, hm => by
      simp only [layout] at hm
      cases hl : layoutFold o cs t l with
      | none => rw [hl] at hm; exact nomatch hm
      | some cs' =>
          simp only [hl] at hm
          injection hm with hm
          subst hm
          simp only [stripG]
          rw [layoutFold_pres_stripG _ _ _ _ _ hl]

theorem layoutFold_pres_stripG :
    ∀ (o : Orientation) (cs : VList) (y x : Nat) (cs' : VList),
      layoutFold o cs y x = some cs' → stripGL cs' = stripGL cs
  | o, .nil, y, x, cs', hm => by
      simp only [layoutFold] at hm
      injection hm with hm
      subst hm
      rfl
  | o, .cons c cs, y, x, cs', hm => by
      simp only [layoutFold] at hm
      cases hc : layout y x c with
      | none => rw [hc] at hm; exact nomatch hm
      | some c' =>
      simp only [hc] at hm
      cases o with
      | vertical =>
          cases hgh : gmH c' with
          | none => rw [hgh] at hm; exact nomatch hm
          | some ch =>
              simp only [hgh] at hm
              cases hrec : layoutFold .vertical cs (y + ch) x with
              | none => rw [hrec] at hm; exact nomatch hm
              | some cs2 =>
                  simp only [hrec] at hm
                  injection hm with hm
                  subst hm
                  simp only [stripGL]
                  rw [layout_pres_stripG _ _ c c' hc,
                    layoutFold_pres_stripG _ _ _ _ _ hrec]
      | horizontal =>
          cases hgw : gmW c' with
          | none => rw [hgw] at hm; exact nomatch hm
          | some cw =>
              simp only [hgw] at hm
              cases hrec : layoutFold .horizontal cs y (x + cw) with
              | none => rw [hrec] at hm; exact nomatch hm
              | some cs2 =>
                  simp only [hrec] at hm
                  injection hm with hm
                  subst hm
                  simp only [stripGL]
                  rw [layout_pres_stripG _ _ c c' hc,
                    layoutFold_pres_stripG _ _ _ _ _ hrec]

end

mutual

/-- `measure` reads none of the current geometry: up to `stripS` of the
result, measuring `v` and measuring its geometry-erased form agree (both in
success and in panic). -/
theorem measure_stripG :
    ∀ (ws hs : Option Nat) (v : VTree),
      (measure ws hs v).map stripS = (measure ws hs (stripG v)).map stripS
  | ws, hs, .leaf dw dh x y w h => by
      simp only [stripG, measure]
      cases resolveDim dw ws with
      | none => rfl
      | some w' =>
          simp only []
          cases resolveDim dh hs with
          | none => rfl
          | some h' => simp [stripS]
  | ws, hs, .frame x y w h .none => by
      simp [stripG, measure, stripS, stripGO, stripSO]
  | ws, hs, .frame x y w h (.some t) => by
      have ih := measure_stripG (some (ws.getD 0)) (some (hs.getD 0)) t
      simp only [stripG, stripGO, measure]
      cases hl : measure (some (ws.getD 0)) (some (hs.getD 0)) t with
      | none =>
          cases hr : measure (some (ws.getD 0)) (some (hs.getD 0))
              (stripG t) with
          | none => rfl
          | some t₂ => rw [hl, hr] at ih; exact nomatch ih
      | some t₁ =>
          cases hr : measure (some (ws.getD 0)) (some (hs.getD 0))
              (stripG t) with
          | none => rw [hl, hr] at ih; exact nomatch ih
          | some t₂ =>
              rw [hl, hr] at ih
              simp only [Option.map_some'] at ih
              injection ih with ih
              simp only []
              simp [stripS, stripSO, ih]
  | ws, hs, .linear o dw dh x y w h cs => by
      have ihl := measureList_stripG cs
      simp only [stripG, measure]
      cases hl : measureList cs with
      | none =>
          cases hr : measureList (stripGL cs) with
          | none => rfl
          | some cs₂ => rw [hl, hr] at ihl; exact nomatch ihl
      | some cs₁ =>
          cases hr : measureList (stripGL cs) with
          | none => rw [hl, hr] at ihl; exact nomatch ihl
          | some cs₂ =>
              rw [hl, hr] at ihl
              simp only [Option.map_some'] at ihl
              injection ihl with ihl
              simp only []
              have hgm : gmList cs₂ = gmList cs₁ := by
                rw [← gmList_stripSL cs₁, ← gmList_stripSL cs₂, ihl]
              rw [hgm]
              cases hrem1 : remaining (specFor dw ws)
                  (minWidth o (gmList cs₁)) with
              | none => rfl
              | some remW =>
              simp only []
              cases hrem2 : remaining (specFor dh hs)
                  (minHeight o (gmList cs₁)) with
              | none => rfl
              | some remH =>
              simp only []
              have ihf := resolveFold_stripG o (specFor dw ws) (specFor dh hs)
                (splittedW o (specFor dw ws) remW (gmList cs₁))
                (splittedH o (specFor dh hs) remH (gmList cs₁))
                cs (gmList cs₁) 0 0
              cases hf1 : resolveFold o (specFor dw ws) (specFor dh hs)
                  (splittedW o (specFor dw ws) remW (gmList cs₁))
                  (splittedH o (specFor dh hs) remH (gmList cs₁))
                  cs (gmList cs₁) 0 0 with
              | none =>
                  cases hf2 : resolveFold o (specFor dw ws) (specFor dh hs)
                      (splittedW o (specFor dw ws) remW (gmList cs₁))
                      (splittedH o (specFor dh hs) remH (gmList cs₁))
                      (stripGL cs) (gmList cs₁) 0 0 with
                  | none => rfl
                  | some out2 => rw [hf1, hf2] at ihf; exact nomatch ihf
              | some out1 =>
                  cases hf2 : resolveFold o (specFor dw ws) (specFor dh hs)
                      (splittedW o (specFor dw ws) remW (gmList cs₁))
                      (splittedH o (specFor dh hs) remH (gmList cs₁))
                      (stripGL cs) (gmList cs₁) 0 0 with
                  | none => rw [hf1, hf2] at ihf; exact nomatch ihf
                  | some out2 =>
                      obtain ⟨csa, fwa, fha⟩ := out1
                      obtain ⟨csb, fwb, fhb⟩ := out2
                      rw [hf1, hf2] at ihf
                      simp only [Option.map_some'] at ihf
                      injection ihf with ihf
                      injection ihf with ih1 ih2
                      injection ih2 with ih2 ih3
                      simp only []
                      simp [stripS, stripSL, ih1, ih2, ih3]

theorem measureList_stripG :
    ∀ (cs : VList),
      (measureList cs).map stripSL = (measureList (stripGL cs)).map stripSL
  | .nil => by simp [measureList, stripGL]
  | .cons c cs => by
      have ihc := measure_stripG none none c
      simp only [stripGL, measureList]
      cases h1 : measure none none c with
      | none =>
          cases h2 : measure none none (stripG c) with
          | none => rfl
          | some c₂ => rw [h1, h2] at ihc; exact nomatch ihc
      | some c₁ =>
          cases h2 : measure none none (stripG c) with
          | none => rw [h1, h2] at ihc; exact nomatch ihc
          | some c₂ =>
              rw [h1, h2] at ihc
              simp only [Option.map_some'] at ihc
              injection ihc with ihc
              simp only []
              have ihl := measureList_stripG cs
              cases h3 : measureList cs with
              | none =>
                  cases h4 : measureList (stripGL cs) with
                  | none => rfl
                  | some cs₂ => rw [h3, h4] at ihl; exact nomatch ihl
              | some cs₁ =>
                  cases h4 : measureList (stripGL cs) with
                  | none => rw [h3, h4] at ihl; exact nomatch ihl
                  | some cs₂ =>
                      rw [h3, h4] at ihl
                      simp only [Option.map_some'] at ihl
                      injection ihl with ihl
                      simp only []
                      simp [stripSL, ihc, ihl]

theorem resolveFold_stripG :
    ∀ (o : Orientation) (mW mH sW sH : Option Nat) (cs : VList)
      (gms : List (Option Nat × Option Nat)) (w h : Nat),
      (resolveFold o mW mH sW sH cs gms w h).map
          (fun p => (stripSL p.1, p.2)) =
        (resolveFold o mW mH sW sH (stripGL cs) gms w h).map
          (fun p => (stripSL p.1, p.2))
  | o, mW, mH, sW, sH, .nil, gms, w, h => by
      simp [resolveFold, stripGL]
  | o, mW, mH, sW, sH, .cons c cs, gms, w, h => by
      simp only [stripGL, resolveFold]
      cases hc1 : capMain (o = .horizontal) mW
          (pickSpec (gms.headD (none, none)).1 sW) w with
      | none => rfl
      | some wSpec =>
      simp only []
      cases hc2 : capMain (o = .vertical) mH
          (pickSpec (gms.headD (none, none)).2 sH) h with
      | none => rfl
      | some hSpec =>
      simp only []
      have ihc := measure_stripG wSpec hSpec c
      cases hmc : measure wSpec hSpec c with
      | none =>
          cases hmr : measure wSpec hSpec (stripG c) with
          | none => rfl
          | some c₂ => rw [hmc, hmr] at ihc; exact nomatch ihc
      | some c₁ =>
          cases hmr : measure wSpec hSpec (stripG c) with
          | none => rw [hmc, hmr] at ihc; exact nomatch ihc
          | some c₂ =>
              rw [hmc, hmr] at ihc
              simp only [Option.map_some'] at ihc
              injection ihc with ihc
              simp only []
              have hgw : gmW c₂ = gmW c₁ := by
                rw [← gmW_stripS c₁, ← gmW_stripS c₂, ihc]
              have hgh : gmH c₂ = gmH c₁ := by
                rw [← gmH_stripS c₁, ← gmH_stripS c₂, ihc]
              rw [hgw, hgh]
              cases hw1 : gmW c₁ with
              | none => cases hh1 : gmH c₁ <;> rfl
              | some cw =>
              cases hh1 : gmH c₁ with
              | none => rfl
              | some ch =>
              simp only []
              cases o with
              | vertical =>
                  have ihf := resolveFold_stripG .vertical mW mH sW sH cs
                    gms.tail (max w cw) (h + ch)
                  cases hf1 : resolveFold .vertical mW mH sW sH cs gms.tail
                      (max w cw) (h + ch) with
                  | none =>
                      cases hf2 : resolveFold .vertical mW mH sW sH
                          (stripGL cs) gms.tail (max w cw) (h + ch) with
                      | none => rfl
                      | some out2 => rw [hf1, hf2] at ihf; exact nomatch ihf
                  | some out1 =>
                      cases hf2 : resolveFold .vertical mW mH sW sH
                          (stripGL cs) gms.tail (max w cw) (h + ch) with
                      | none => rw [hf1, hf2] at ihf; exact nomatch ihf
                      | some out2 =>
                          obtain ⟨csa, fwa, fha⟩ := out1
                          obtain ⟨csb, fwb, fhb⟩ := out2
                          rw [hf1, hf2] at ihf
                          simp only [Option.map_some'] at ihf
                          injection ihf with ihf
                          injection ihf with ih1 ih2
                          injection ih2 with ih2 ih3
                          simp only []
                          simp [stripSL, ihc, ih1, ih2, ih3]
              | horizontal =>
                  have ihf := resolveFold_stripG .horizontal mW mH sW sH cs
                    gms.tail (w + cw) (max (w + cw) ch)
                  cases hf1 : resolveFold .horizontal mW mH sW sH cs gms.tail
                      (w + cw) (max (w + cw) ch) with
                  | none =>
                      cases hf2 : resolveFold .horizontal mW mH sW sH
                          (stripGL cs) gms.tail (w + cw) (max (w + cw) ch) with
                      | none => rfl
                      | some out2 => rw [hf1, hf2] at ihf; exact nomatch ihf
                  | some out1 =>
                      cases hf2 : resolveFold .horizontal mW mH sW sH
                          (stripGL cs) gms.tail (w + cw) (max (w + cw) ch) with
                      | none => rw [hf1, hf2] at ihf; exact nomatch ihf
                      | some out2 =>
                          obtain ⟨csa, fwa, fha⟩ := out1
                          obtain ⟨csb, fwb, fhb⟩ := out2
                          rw [hf1, hf2] at ihf
                          simp only [Option.map_some'] at ihf
                          injection ihf with ihf
                          injection ihf with ih1 ih2
                          injection ih2 with ih2 ih3
                          simp only []
                          simp [stripSL, ihc, ih1, ih2, ih3]

end

mutual

/-- `layout` reads only the measured sizes: positions in the input are
irrelevant (every node's `x`/`y` is overwritten). -/
theorem layout_stripS :
    ∀ (t l : Nat) (v : VTree), layout t l v = layout t l (stripS v)
  | t, l, .leaf dw dh x y w h => rfl
  | t, l, .frame x y w h .none => rfl
  | t, l, .frame x y w h (.some u) => by
      simp only [stripS, stripSO, layout]
      rw [← layout_stripS t l u]
  | t, l, .linear o dw dh x y w h cs => by
      simp only [stripS, layout]
      rw [← layoutFold_stripS o cs t l]

theorem layoutFold_stripS :
    ∀ (o : Orientation) (cs : VList) (y x : Nat),
      layoutFold o cs y x = layoutFold o (stripSL cs) y x
  | o, .nil, y, x => rfl
  | o, .cons c cs, y, x => by
      simp only [stripSL, layoutFold]
      rw [← layout_stripS y x c]
      cases hc : layout y x c with
      | none => rfl
      | some c' =>
          simp only []
          cases o with
          | vertical =>
              cases gmH c' with
              | none => rfl
              | some ch =>
                  simp only []
                  rw [← layoutFold_stripS .vertical cs (y + ch) x]
          | horizontal =>
              cases gmW c' with
              | none => rfl
              | some cw =>
                  simp only []
                  rw [← layoutFold_stripS .horizontal cs y (x + cw)]

end

/-- C9: if `measure` then `layout` succeed on a view tree, running the same
`measure`+`layout` again on the result succeeds and reproduces exactly the
same tree — identical `(x, y, w, h)` on every node. -/
theorem c9_measure_layout_idempotent (ws hs : Option Nat) (t l : Nat)
    (v m g : VTree) (hm : measure ws hs v = some m)
    (hg : layout t l m = some g) :
    ∃ m₂, measure ws hs g = some m₂ ∧ layout t l m₂ = some g := by
  have h1 : stripG m = stripG v := measure_pres_stripG ws hs v m hm
  have h2 : stripG g = stripG m := layout_pres_stripG t l m g hg
  have h3 := measure_stripG ws hs g
  have h4 := measure_stripG ws hs v
  rw [h2, h1, ← h4, hm] at h3
  cases hmg : measure ws hs g with
  | none => rw [hmg] at h3; exact nomatch h3
  | some m₂ =>
      rw [hmg] at h3
      simp only [Option.map_some'] at h3
      injection h3 with h3
      refine ⟨m₂, rfl, ?_⟩
      rw [layout_stripS t l m₂, h3, ← layout_stripS t l m]
      exact hg

/-- A vertical root with two `MatchParent`-wide, 1-high leaves, as in spec
scenario 4. -/
def c9tree : VTree :=
  .linear .vertical .matchParent .matchParent 0 0 0 0
    (.cons (.leaf .matchParent (.absolute 1) 0 0 0 0)
      (.cons (.leaf .matchParent (.absolute 1) 0 0 0 0) .nil))

/-- The measured form of `c9tree` under a 10×10 spec. -/
def c9m : VTree :=
  .linear .vertical .matchParent .matchParent 0 0 10 2
    (.cons (.leaf .matchParent (.absolute 1) 0 0 10 1)
      (.cons (.leaf .matchParent (.absolute 1) 0 0 10 1) .nil))

/-- The laid-out form of `c9m` at origin (1, 1). -/
def c9g : VTree :=
  .linear .vertical .matchParent .matchParent 1 1 10 2
    (.cons (.leaf .matchParent (.absolute 1) 1 1 10 1)
      (.cons (.leaf .matchParent (.absolute 1) 1 2 10 1) .nil))

/-- C9 witness: the idempotence theorem applied to a concrete measured and
laid-out tree. -/
theorem c9_measure_layout_idempotent_witness :
    measure (some 10) (some 10) c9tree = some c9m ∧
    layout 1 1 c9m = some c9g ∧
    ∃ m₂, measure (some 10) (some 10) c9g = some m₂ ∧
      layout 1 1 m₂ = some c9g :=
  ⟨by decide, by decide,
    c9_measure_layout_idempotent (some 10) (some 10) 1 1 c9tree c9m c9g
      (by decide) (by decide)⟩

end Aparte
